import Mathlib

/-!
# Verification of the sora2api_cf relay workers

A shallow embedding of the three source files of the repository
(`cf-worker-proxy.js`, `cf-worker-upload.js`, `supabase-edge-proxy.ts`)
and proofs about them.

The handlers manipulate JSON values produced by `JSON.parse` and serialized
with `JSON.stringify`.  We model JSON values with integer numbers (`Int`);
the model does not cover fractional/exponent numeric literals, lone
surrogates, or non-finite numbers, none of which the claims touch.
`Json.obj` keeps fields in insertion order, as JavaScript objects do.
-/

namespace Sora

/-- A JavaScript JSON value (numbers modelled as integers). -/
inductive Json where
  | null
  | bool (b : Bool)
  | num (n : Int)
  | str (s : String)
  | arr (elems : List Json)
  | obj (fields : List (String × Json))

/-! ## Serialization: the model of `JSON.stringify`

`JSON.stringify` output for the modelled fragment: no whitespace, strings
escaped with `\"` `\\` `\b` `\t` `\n` `\f` `\r` and lowercase `\u00xx` for the
remaining control characters, integers in decimal with a leading `-` for
negatives, arrays and objects comma-separated in order. -/

/-- Lowercase hexadecimal digit for `n < 16`, as `JSON.stringify` emits in
`\u00xx` escapes. -/
def hexDigitChar (n : Nat) : Char :=
  if n < 10 then Char.ofNat (48 + n) else Char.ofNat (87 + n)

/-- How `JSON.stringify` escapes a single character inside a string literal. -/
def escChar (c : Char) : List Char :=
  if c = '"' then ['\\', '"']
  else if c = '\\' then ['\\', '\\']
  else if c = '\x08' then ['\\', 'b']
  else if c = '\t' then ['\\', 't']
  else if c = '\n' then ['\\', 'n']
  else if c = '\x0c' then ['\\', 'f']
  else if c = '\r' then ['\\', 'r']
  else if c.toNat < 32 then
    ['\\', 'u', '0', '0', hexDigitChar (c.toNat / 16), hexDigitChar (c.toNat % 16)]
  else [c]

/-- All characters of an escaped string body (between the quotes). -/
def escBody (cs : List Char) : List Char := cs.flatMap escChar

/-- Decimal digit characters of a natural number, most significant first
(the characters `String(n)` produces for a natural `n`). -/
def natChars (m : Nat) : List Char :=
  if m = 0 then ['0'] else (Nat.digits 10 m).reverse.map (fun d => Char.ofNat (48 + d))

/-- Decimal characters of an integer, with a `-` sign when negative. -/
def intChars (n : Int) : List Char :=
  if n < 0 then '-' :: natChars n.natAbs else natChars n.toNat

mutual

/-- Characters of `JSON.stringify v`. -/
def stringifyChars : Json → List Char
  | .num n => intChars n
  | .bool false => ['f', 'a', 'l', 's', 'e']
  | .bool true => ['t', 'r', 'u', 'e']
  | .null => ['n', 'u', 'l', 'l']
  | .str s => '"' :: (escBody s.data ++ ['"'])
  | .arr [] => ['[', ']']
  | .arr (v :: t) => '[' :: (stringifyChars v ++ (arrTail t ++ [']']))
  | .obj [] => ['\x7b', '\x7d']
  | .obj ((k, v) :: t) =>
      '\x7b' :: ('"' :: (escBody k.data ++ ('"' :: ':' :: (stringifyChars v
        ++ (objTail t ++ ['\x7d'])))))

/-- The `,`-prefixed continuation of a nonempty array literal. -/
def arrTail : List Json → List Char
  | [] => []
  | v :: t => ',' :: (stringifyChars v ++ arrTail t)

/-- The `,`-prefixed continuation of a nonempty object literal. -/
def objTail : List (String × Json) → List Char
  | [] => []
  | (k, v) :: t =>
      ',' :: '"' :: (escBody k.data ++ ('"' :: ':' :: (stringifyChars v ++ objTail t)))

end

/-- The model of `JSON.stringify`. -/
def stringify (v : Json) : String := String.mk (stringifyChars v)

example : stringify (.obj [("a", .num 1)]) = "\x7b\"a\":1\x7d" := by
  simp [stringify, stringifyChars, objTail, escBody, intChars, natChars, escChar]

example : stringify (.arr [.null, .num (-20), .str "h\ni"]) = "[null,-20,\"h\\ni\"]" := by
  simp [stringify, stringifyChars, arrTail, escBody, intChars, natChars, escChar]

/-! ## Parsing: the model of `JSON.parse`

A recursive-descent parser over the character list, structural on a fuel
counter.  It accepts exactly the JSON grammar restricted to the modelled
fragment: numeric literals must be (optionally signed) integers without
leading zeros, fraction or exponent parts, and `\uXXXX` escapes must not
denote surrogate halves.  On everything else it follows `JSON.parse`:
insignificant whitespace, the four string whitespace characters, ordered
object fields (duplicate keys are kept; reads take the last one, see
`getField`). -/

/-- JSON insignificant whitespace (space, tab, line feed, carriage return). -/
def isJsonWs (c : Char) : Bool := c = ' ' || c = '\t' || c = '\n' || c = '\r'

/-- Drop leading JSON whitespace. -/
def skipWs (cs : List Char) : List Char := cs.dropWhile isJsonWs

/-- Numeric value of one hexadecimal digit (either case), as in `\uXXXX`. -/
def hexVal (c : Char) : Option Nat :=
  if '0' ≤ c && c ≤ '9' then some (c.toNat - 48)
  else if 'a' ≤ c && c ≤ 'f' then some (c.toNat - 87)
  else if 'A' ≤ c && c ≤ 'F' then some (c.toNat - 55)
  else none

/-- Decimal digit test, as in the JSON number grammar. -/
def isDigitChar (c : Char) : Bool := '0' ≤ c && c ≤ '9'

/-- Accumulate a digit run into a natural number. -/
def digitsVal (ds : List Char) : Nat :=
  ds.foldl (fun a c => 10 * a + (c.toNat - 48)) 0

/-- Parse an unsigned JSON integer literal: a nonempty digit run without a
leading zero, not followed by a fraction or exponent part (which are outside
the modelled fragment). -/
def parseNatTok (cs : List Char) : Option (Nat × List Char) :=
  let ds := cs.takeWhile isDigitChar
  let rest := cs.dropWhile isDigitChar
  if ds.isEmpty then none
  else if ds.head? = some '0' && ds.length != 1 then none
  else match rest with
    | [] => some (digitsVal ds, [])
    | c :: _ => if c = '.' || c = 'e' || c = 'E' then none else some (digitsVal ds, rest)

/-- Parse a JSON number token (optional minus sign, then an integer). -/
def parseNumTok (cs : List Char) : Option (Json × List Char) :=
  match cs with
  | [] => none
  | c :: r =>
    if c = '-' then (parseNatTok r).map (fun p => (.num (-(p.1 : Int)), p.2))
    else (parseNatTok (c :: r)).map (fun p => (.num (p.1 : Int), p.2))

/-- Single-character JSON escapes (`\"`, `\\`, `\/`, `\b`, `\f`, `\n`, `\r`,
`\t`). -/
def unescapeChar (e : Char) : Option Char :=
  if e = '"' then some '"'
  else if e = '\\' then some '\\'
  else if e = '/' then some '/'
  else if e = 'b' then some '\x08'
  else if e = 'f' then some '\x0c'
  else if e = 'n' then some '\n'
  else if e = 'r' then some '\r'
  else if e = 't' then some '\t'
  else none

/-- Value of a four-digit `\uXXXX` escape body. -/
def hex4 (h1 h2 h3 h4 : Char) : Option Nat :=
  match hexVal h1, hexVal h2, hexVal h3, hexVal h4 with
  | some v1, some v2, some v3, some v4 => some (((v1 * 16 + v2) * 16 + v3) * 16 + v4)
  | _, _, _, _ => none

/-- Parse a string body after the opening quote, up to and including the
closing quote.  Structural on the input list. -/
def parseStrBody : List Char → Option (List Char × List Char)
  | [] => none
  | c :: r =>
    if c = '"' then some ([], r)
    else if c = '\\' then
      match r with
      | [] => none
      | e :: r2 =>
        if e = 'u' then
          match r2 with
          | h1 :: h2 :: h3 :: h4 :: r3 =>
            match hex4 h1 h2 h3 h4 with
            | some n =>
              if 0xd800 ≤ n && n ≤ 0xdfff then none
              else (parseStrBody r3).map (fun p => (Char.ofNat n :: p.1, p.2))
            | none => none
          | _ => none
        else
          match unescapeChar e with
          | some ch => (parseStrBody r2).map (fun p => (ch :: p.1, p.2))
          | none => none
    else if c.toNat < 32 then none
    else (parseStrBody r).map (fun p => (c :: p.1, p.2))

mutual

/-- Parse one JSON value (after skipping leading whitespace). -/
def parseVal : Nat → List Char → Option (Json × List Char)
  | 0, _ => none
  | fuel + 1, cs =>
    match skipWs cs with
    | [] => none
    | c :: r =>
      if c = '"' then (parseStrBody r).map (fun p => (.str (String.mk p.1), p.2))
      else if c = '[' then
        match skipWs r with
        | [] => none
        | c2 :: r2 =>
          if c2 = ']' then some (.arr [], r2)
          else
            match parseVal fuel (c2 :: r2) with
            | none => none
            | some (v, r3) => parseArrRest fuel r3 [v]
      else if c = '\x7b' then
        match skipWs r with
        | [] => none
        | c2 :: r2 =>
          if c2 = '\x7d' then some (.obj [], r2)
          else if c2 = '"' then
            match parseStrBody r2 with
            | none => none
            | some (k, r3) =>
              match skipWs r3 with
              | ':' :: r4 =>
                match parseVal fuel r4 with
                | none => none
                | some (v, r5) => parseObjRest fuel r5 [(String.mk k, v)]
              | _ => none
          else none
      else if c = 'n' then
        match r with
        | 'u' :: 'l' :: 'l' :: r2 => some (.null, r2)
        | _ => none
      else if c = 't' then
        match r with
        | 'r' :: 'u' :: 'e' :: r2 => some (.bool true, r2)
        | _ => none
      else if c = 'f' then
        match r with
        | 'a' :: 'l' :: 's' :: 'e' :: r2 => some (.bool false, r2)
        | _ => none
      else parseNumTok (c :: r)

/-- Parse the continuation of an array literal after its first element:
`,`-separated further elements up to the closing `]`. -/
def parseArrRest : Nat → List Char → List Json → Option (Json × List Char)
  | 0, _, _ => none
  | fuel + 1, cs, acc =>
    match skipWs cs with
    | ',' :: r =>
      match parseVal fuel r with
      | none => none
      | some (v, r2) => parseArrRest fuel r2 (acc ++ [v])
    | ']' :: r => some (.arr acc, r)
    | _ => none

/-- Parse the continuation of an object literal after its first field:
`,`-separated further `"key":value` pairs up to the closing brace. -/
def parseObjRest : Nat → List Char → List (String × Json) → Option (Json × List Char)
  | 0, _, _ => none
  | fuel + 1, cs, acc =>
    match skipWs cs with
    | ',' :: r =>
      match skipWs r with
      | '"' :: r2 =>
        match parseStrBody r2 with
        | none => none
        | some (k, r3) =>
          match skipWs r3 with
          | ':' :: r4 =>
            match parseVal fuel r4 with
            | none => none
            | some (v, r5) => parseObjRest fuel r5 (acc ++ [(String.mk k, v)])
          | _ => none
      | _ => none
    | '\x7d' :: r => some (.obj acc, r)
    | _ => none

end

/-- The model of `JSON.parse`: parse one value, then require only whitespace
to remain.  `none` models a thrown `SyntaxError`. -/
def jsonParse (s : String) : Option Json :=
  match parseVal (s.data.length + 1) s.data with
  | none => none
  | some (v, rest) => if (skipWs rest).isEmpty then some v else none

example : jsonParse "  \x7b\"a\" : [1, true, \"x\"]\x7d  "
    = some (.obj [("a", .arr [.num 1, .bool true, .str "x"])]) := by rfl

example : jsonParse "hello" = none := by rfl
example : jsonParse "" = none := by rfl
example : jsonParse "\x7b\"a\":1" = none := by rfl

/-! ## The codec round-trip

`jsonParse (stringify v) = some v` for every modelled value `v` — the fact
behind the spec's round-trip property for the Response Normalizer.  The
parser runs on a fuel counter, so we first measure how much fuel a value
needs (`jsize`) and bound it by the rendered length. -/

mutual

/-- Fuel sufficient for `parseVal` to parse `stringifyChars v`. -/
def jsize : Json → Nat
  | .null => 1
  | .bool _ => 1
  | .num _ => 1
  | .str _ => 1
  | .arr [] => 1
  | .arr (v :: t) => 1 + jsize v + jsizeTail t
  | .obj [] => 1
  | .obj ((_, v) :: t) => 1 + jsize v + jsizeObjTail t

/-- Fuel sufficient for `parseArrRest` on `arrTail t`. -/
def jsizeTail : List Json → Nat
  | [] => 1
  | v :: t => 1 + jsize v + jsizeTail t

/-- Fuel sufficient for `parseObjRest` on `objTail t`. -/
def jsizeObjTail : List (String × Json) → Nat
  | [] => 1
  | (_, v) :: t => 1 + jsize v + jsizeObjTail t

end

theorem jsize_pos (v : Json) : 1 ≤ jsize v := by
  cases v with
  | arr xs => cases xs <;> simp [jsize] <;> omega
  | obj fs =>
    cases fs with
    | nil => simp [jsize]
    | cons p t => cases p; simp [jsize]; omega
  | _ => simp [jsize]

theorem jsizeTail_pos (t : List Json) : 1 ≤ jsizeTail t := by
  cases t <;> simp [jsizeTail] <;> omega

theorem jsizeObjTail_pos (t : List (String × Json)) : 1 ≤ jsizeObjTail t := by
  cases t with
  | nil => simp [jsizeObjTail]
  | cons p t => cases p; simp [jsizeObjTail]; omega

/-- A remainder that cannot extend a number token: empty, or starting with a
JSON delimiter.  This is what follows a rendered value in every position the
round-trip proof encounters. -/
def numStop (cs : List Char) : Bool :=
  match cs with
  | [] => true
  | c :: _ => c = ',' || c = ']' || c = '\x7d'

/-- Everything `dChar_props` needs about a decimal digit character, proved by
exhausting the ten cases. -/
theorem dChar_props (d : Nat) (h : d < 10) :
    isDigitChar (Char.ofNat (48 + d)) = true ∧ (Char.ofNat (48 + d)).toNat = 48 + d ∧
    isJsonWs (Char.ofNat (48 + d)) = false ∧ Char.ofNat (48 + d) ≠ '"' ∧
    Char.ofNat (48 + d) ≠ '[' ∧ Char.ofNat (48 + d) ≠ '\x7b' ∧
    Char.ofNat (48 + d) ≠ 'n' ∧ Char.ofNat (48 + d) ≠ 't' ∧
    Char.ofNat (48 + d) ≠ 'f' ∧ Char.ofNat (48 + d) ≠ '-' ∧
    Char.ofNat (48 + d) ≠ ']' := by
  interval_cases d <;> refine ⟨by decide, by decide, by decide, by decide, by decide,
    by decide, by decide, by decide, by decide, by decide, by decide⟩

/-- The digits of a natural render as a nonempty digit run; its leading digit
is nonzero unless the number is zero. -/
theorem natChars_shape (m : Nat) :
    ∃ d t, d < 10 ∧ natChars m = Char.ofNat (48 + d) :: t ∧ (m ≠ 0 → d ≠ 0) := by
  by_cases hm : m = 0
  · exact ⟨0, [], by omega, by simp [natChars, hm], by simp [hm]⟩
  · have hne : Nat.digits 10 m ≠ [] := Nat.digits_ne_nil_iff_ne_zero.mpr hm
    have hrev : (Nat.digits 10 m).reverse ≠ [] := by simpa using hne
    obtain ⟨d, t, ht⟩ := List.exists_cons_of_ne_nil hrev
    have hdmem : d ∈ Nat.digits 10 m := by
      have : d ∈ (Nat.digits 10 m).reverse := ht ▸ List.mem_cons_self d t
      simpa using this
    have hd10 : d < 10 := Nat.digits_lt_base (by omega) hdmem
    refine ⟨d, t.map (fun x => Char.ofNat (48 + x)), hd10, ?_, ?_⟩
    · simp [natChars, hm, ht]
    · intro _
      have hlast : (Nat.digits 10 m).getLast hne ≠ 0 := Nat.getLast_digit_ne_zero 10 hm
      have : (Nat.digits 10 m).getLast hne = d := by
        have h1 : ((Nat.digits 10 m).reverse).head hrev = (Nat.digits 10 m).getLast hne := by
          simp [List.head_reverse]
        have h2 : ((Nat.digits 10 m).reverse).head hrev = d := by simp [ht]
        omega
      omega

theorem natChars_all_digits (m : Nat) : ∀ c ∈ natChars m, isDigitChar c = true := by
  intro c hc
  by_cases hm : m = 0
  · simp [natChars, hm] at hc
    rw [hc]; decide
  · simp [natChars, hm] at hc
    obtain ⟨d, hd, rfl⟩ := hc
    exact (dChar_props d (Nat.digits_lt_base (by omega) hd)).1

/-- Folding the digit characters of `m` recovers `m`. -/
theorem digitsVal_natChars (m : Nat) : digitsVal (natChars m) = m := by
  by_cases hm : m = 0
  · simp [natChars, hm, digitsVal]
  · have key : ∀ (L : List Nat), (∀ d ∈ L, d < 10) → ∀ (a : Nat),
        List.foldl (fun acc c => 10 * acc + (c.toNat - 48)) a
          (L.reverse.map (fun d => Char.ofNat (48 + d)))
          = a * 10 ^ L.length + Nat.ofDigits 10 L := by
      intro L
      induction L with
      | nil => intro _ a; simp [Nat.ofDigits]
      | cons x xs ih =>
        intro hall a
        have hx : x < 10 := hall x (List.mem_cons_self x xs)
        have hxs : ∀ d ∈ xs, d < 10 := fun d hd => hall d (List.mem_cons_of_mem x hd)
        have htn := (dChar_props x hx).2.1
        have hsub : 48 + x - 48 = x := by omega
        simp only [List.reverse_cons, List.map_append, List.map_cons, List.map_nil,
          List.foldl_append, List.foldl_cons, List.foldl_nil, ih hxs a]
        rw [htn, hsub, Nat.ofDigits_cons, List.length_cons, pow_succ]
        ring
    simp only [digitsVal, natChars, if_neg hm]
    rw [key (Nat.digits 10 m) (fun d hd => Nat.digits_lt_base (by omega) hd) 0,
      Nat.ofDigits_digits]
    omega

theorem natChars_ne_nil (m : Nat) : natChars m ≠ [] := by
  obtain ⟨d, t, _, heq, _⟩ := natChars_shape m
  simp [heq]

/-- `takeWhile`/`dropWhile` split an all-satisfying prefix off a stopped
remainder. -/
theorem takeWhile_dropWhile_append {p : Char → Bool} (l r : List Char)
    (hl : ∀ a ∈ l, p a = true) (hr : (List.takeWhile p r).isEmpty = true) :
    (l ++ r).takeWhile p = l ∧ (l ++ r).dropWhile p = r := by
  induction l with
  | nil =>
    constructor
    · cases r with
      | nil => rfl
      | cons c t =>
        simp only [List.nil_append, List.takeWhile_cons] at *
        by_cases hc : p c = true <;> simp [hc] at hr ⊢
    · cases r with
      | nil => rfl
      | cons c t =>
        simp only [List.nil_append, List.takeWhile_cons, List.dropWhile_cons] at *
        by_cases hc : p c = true <;> simp [hc] at hr ⊢
  | cons a l ih =>
    have ha : p a = true := hl a (List.mem_cons_self a l)
    have hl' : ∀ x ∈ l, p x = true := fun x hx => hl x (List.mem_cons_of_mem a hx)
    obtain ⟨h1, h2⟩ := ih hl'
    exact ⟨by simp [List.takeWhile_cons, ha, h1], by simp [List.dropWhile_cons, ha, h2]⟩

theorem numStop_not_digit {cs : List Char} (h : numStop cs = true) :
    (List.takeWhile isDigitChar cs).isEmpty = true := by
  cases cs with
  | nil => rfl
  | cons c t =>
    have h3 : (c = ',' ∨ c = ']') ∨ c = '\x7d' := by simpa [numStop] using h
    rcases h3 with (rfl | rfl) | rfl <;> rfl

/-- Parsing the rendered digits of `m` recovers `m`, provided the remainder
cannot extend the token. -/
theorem parseNatTok_natChars (m : Nat) (rest : List Char) (hr : numStop rest = true) :
    parseNatTok (natChars m ++ rest) = some (m, rest) := by
  obtain ⟨htake, hdrop⟩ :=
    takeWhile_dropWhile_append (natChars m) rest (natChars_all_digits m)
      (numStop_not_digit hr)
  simp only [parseNatTok, htake, hdrop]
  rw [if_neg (by simp [natChars_ne_nil m])]
  obtain ⟨d, t, hd10, heq, hdz⟩ := natChars_shape m
  have hlead : (natChars m).head? = some '0' → (natChars m).length = 1 := by
    intro hh
    by_cases hm : m = 0
    · simp [natChars, hm]
    · exfalso
      rw [heq] at hh
      simp only [List.head?_cons, Option.some.injEq] at hh
      have htn := (dChar_props d hd10).2.1
      have : (Char.ofNat (48 + d)).toNat = '0'.toNat := by rw [hh]
      rw [htn] at this
      have : d = 0 := by simpa using this
      exact hdz hm this
  have hguard : ((natChars m).head? = some '0' && (natChars m).length != 1) = false := by
    by_cases hh : (natChars m).head? = some '0'
    · simp [hh, hlead hh]
    · simp [hh]
  rw [hguard]
  simp only [Bool.false_eq_true, if_false]
  cases rest with
  | nil => simp [digitsVal_natChars]
  | cons c t =>
    have h3 : (c = ',' ∨ c = ']') ∨ c = '\x7d' := by simpa [numStop] using hr
    rcases h3 with (rfl | rfl) | rfl <;> simp [digitsVal_natChars]

/-- A small character round-trips through `Char.ofNat`/`Char.toNat`. -/
theorem charOfNat_toNat {c : Char} (h : c.toNat < 55296) : Char.ofNat c.toNat = c := by
  rcases c with ⟨v, hv⟩
  simp only [Char.ofNat, Char.toNat] at *
  split
  · congr
  · rename_i hcon
    exact absurd (by constructor; omega) hcon

theorem hexVal_hexDigitChar (k : Nat) (h : k < 16) : hexVal (hexDigitChar k) = some k := by
  interval_cases k <;> rfl

/-- The hex digits `JSON.stringify` emits in a `\u00xx` escape decode to the
escaped character's code. -/
theorem hex4_escape (a b : Nat) (ha : a < 16) (hb : b < 16) :
    hex4 '0' '0' (hexDigitChar a) (hexDigitChar b) = some (a * 16 + b) := by
  have h0 : hexVal '0' = some 0 := rfl
  simp only [hex4, h0, hexVal_hexDigitChar a ha, hexVal_hexDigitChar b hb]
  norm_num

/-- Parsing one escaped character undoes `escChar`. -/
theorem parseStrBody_escChar (c : Char) (rest : List Char) :
    parseStrBody (escChar c ++ rest) = (parseStrBody rest).map (fun p => (c :: p.1, p.2)) := by
  by_cases h1 : c = '"'
  · subst h1
    rw [show escChar '"' ++ rest = '\\' :: '"' :: rest from rfl, parseStrBody.eq_def]
    simp +decide [unescapeChar]
  by_cases h2 : c = '\\'
  · subst h2
    rw [show escChar '\\' ++ rest = '\\' :: '\\' :: rest from rfl, parseStrBody.eq_def]
    simp +decide [unescapeChar]
  by_cases h3 : c = '\x08'
  · subst h3
    rw [show escChar '\x08' ++ rest = '\\' :: 'b' :: rest from rfl, parseStrBody.eq_def]
    simp +decide [unescapeChar]
  by_cases h4 : c = '\t'
  · subst h4
    rw [show escChar '\t' ++ rest = '\\' :: 't' :: rest from rfl, parseStrBody.eq_def]
    simp +decide [unescapeChar]
  by_cases h5 : c = '\n'
  · subst h5
    rw [show escChar '\n' ++ rest = '\\' :: 'n' :: rest from rfl, parseStrBody.eq_def]
    simp +decide [unescapeChar]
  by_cases h6 : c = '\x0c'
  · subst h6
    rw [show escChar '\x0c' ++ rest = '\\' :: 'f' :: rest from rfl, parseStrBody.eq_def]
    simp +decide [unescapeChar]
  by_cases h7 : c = '\r'
  · subst h7
    rw [show escChar '\r' ++ rest = '\\' :: 'r' :: rest from rfl, parseStrBody.eq_def]
    simp +decide [unescapeChar]
  by_cases h8 : c.toNat < 32
  · have hesc : escChar c ++ rest
        = '\\' :: 'u' :: '0' :: '0' :: hexDigitChar (c.toNat / 16)
          :: hexDigitChar (c.toNat % 16) :: rest := by
      simp [escChar, h1, h2, h3, h4, h5, h6, h7, h8]
    rw [hesc, parseStrBody.eq_def]
    simp +decide only [hex4_escape (c.toNat / 16) (c.toNat % 16) (by omega) (by omega)]
    have hn : c.toNat / 16 * 16 + c.toNat % 16 = c.toNat := by omega
    rw [hn]
    have hng : (decide (55296 ≤ c.toNat) && decide (c.toNat ≤ 57343)) = false := by
      simp
      omega
    simp [hng]
  · have hesc : escChar c ++ rest = c :: rest := by
      simp [escChar, h1, h2, h3, h4, h5, h6, h7, h8]
    rw [hesc, parseStrBody.eq_def]
    simp [h1, h2, h8]

/-- Parsing a rendered string body recovers the string (and the closing
quote's remainder). -/
theorem parseStrBody_escBody (cs rest : List Char) :
    parseStrBody (escBody cs ++ '"' :: rest) = some (cs, rest) := by
  induction cs with
  | nil =>
    rw [show escBody [] ++ '"' :: rest = '"' :: rest from rfl, parseStrBody.eq_def]
    simp
  | cons c t ih =>
    have harg : escBody (c :: t) ++ '"' :: rest = escChar c ++ (escBody t ++ '"' :: rest) := by
      simp [escBody]
    rw [harg, parseStrBody_escChar, ih]
    simp

/-- Every rendered value starts with a non-whitespace character other than
`]` — the facts the parser dispatch needs about nested values. -/
theorem stringifyChars_head (v : Json) :
    ∃ c t, stringifyChars v = c :: t ∧ isJsonWs c = false ∧ c ≠ ']' := by
  cases v with
  | null => exact ⟨'n', ['u', 'l', 'l'], by simp [stringifyChars], by decide, by decide⟩
  | bool b =>
    cases b with
    | true => exact ⟨'t', ['r', 'u', 'e'], by simp [stringifyChars], by decide, by decide⟩
    | false => exact ⟨'f', ['a', 'l', 's', 'e'], by simp [stringifyChars], by decide, by decide⟩
  | str s =>
    exact ⟨'"', escBody s.data ++ ['"'], by simp [stringifyChars], by decide, by decide⟩
  | arr xs =>
    cases xs with
    | nil => exact ⟨'[', [']'], by simp [stringifyChars], by decide, by decide⟩
    | cons v t =>
      exact ⟨'[', stringifyChars v ++ (arrTail t ++ [']']), by simp [stringifyChars],
        by decide, by decide⟩
  | obj fs =>
    cases fs with
    | nil => exact ⟨'\x7b', ['\x7d'], by simp [stringifyChars], by decide, by decide⟩
    | cons p t =>
      obtain ⟨k, v⟩ := p
      exact ⟨'\x7b', '"' :: (escBody k.data ++ ('"' :: ':' :: (stringifyChars v
        ++ (objTail t ++ ['\x7d'])))), by simp [stringifyChars], by decide, by decide⟩
  | num n =>
    simp only [stringifyChars, intChars]
    by_cases hn : n < 0
    · exact ⟨'-', natChars n.natAbs, by simp [hn], by decide, by decide⟩
    · obtain ⟨d, t, hd10, heq, _⟩ := natChars_shape n.toNat
      obtain ⟨_, _, hws, _, _, _, _, _, _, _, hne⟩ := dChar_props d hd10
      exact ⟨Char.ofNat (48 + d), t, by simp [hn, heq], hws, hne⟩

theorem skipWs_cons {c : Char} (t : List Char) (h : isJsonWs c = false) :
    skipWs (c :: t) = c :: t := by
  simp [skipWs, List.dropWhile_cons, h]

theorem skipWs_stringify (v : Json) (x : List Char) :
    skipWs (stringifyChars v ++ x) = stringifyChars v ++ x := by
  obtain ⟨c, t, heq, hws, _⟩ := stringifyChars_head v
  rw [heq, List.cons_append, skipWs_cons _ hws]

/-- The parser's value dispatch falls through to the number token when the
head is no other kind of token start. -/
theorem parseVal_toNum (fuel : Nat) (c : Char) (t : List Char)
    (hws : isJsonWs c = false) (h1 : c ≠ '"') (h2 : c ≠ '[') (h3 : c ≠ '\x7b')
    (h4 : c ≠ 'n') (h5 : c ≠ 't') (h6 : c ≠ 'f') :
    parseVal (fuel + 1) (c :: t) = parseNumTok (c :: t) := by
  simp only [parseVal, skipWs_cons t hws]
  simp [h1, h2, h3, h4, h5, h6]

/-- Rendered numbers parse back, up to a non-extending remainder. -/
theorem parseNumTok_intChars (n : Int) (rest : List Char) (hr : numStop rest = true) :
    parseNumTok (intChars n ++ rest) = some (.num n, rest) := by
  by_cases hn : n < 0
  · have : intChars n ++ rest = '-' :: (natChars n.natAbs ++ rest) := by
      simp [intChars, hn]
    rw [this, parseNumTok]
    simp only [if_pos rfl, parseNatTok_natChars n.natAbs rest hr, Option.map_some, if_true]
    have h2 : -(n.natAbs : Int) = n := by omega
    simp [h2]
    rw [abs_of_neg hn]
    omega
  · obtain ⟨d, t, hd10, heq, _⟩ := natChars_shape n.toNat
    obtain ⟨_, _, _, _, _, _, _, _, _, hminus, _⟩ := dChar_props d hd10
    have harg : intChars n ++ rest = Char.ofNat (48 + d) :: (t ++ rest) := by
      simp [intChars, hn, heq]
    rw [harg, parseNumTok, if_neg hminus]
    have hback : Char.ofNat (48 + d) :: (t ++ rest) = natChars n.toNat ++ rest := by
      simp [heq]
    rw [hback, parseNatTok_natChars n.toNat rest hr]
    have : ((n.toNat : Int)) = n := by omega
    simp [this]

/-- A rendered number starts with `-` or a digit, excluding every other token
start. -/
theorem intChars_head (n : Int) :
    ∃ c t2, intChars n = c :: t2 ∧ isJsonWs c = false ∧ c ≠ '"' ∧ c ≠ '[' ∧
      c ≠ '\x7b' ∧ c ≠ 'n' ∧ c ≠ 't' ∧ c ≠ 'f' := by
  by_cases hn : n < 0
  · exact ⟨'-', natChars n.natAbs, by simp [intChars, hn], by decide, by decide,
      by decide, by decide, by decide, by decide, by decide⟩
  · obtain ⟨d, t, hd10, heq, _⟩ := natChars_shape n.toNat
    obtain ⟨_, _, hws, hq, hbk, hbc, hnn, htt, hff, _, _⟩ := dChar_props d hd10
    exact ⟨Char.ofNat (48 + d), t, by simp [intChars, hn, heq], hws, hq, hbk, hbc,
      hnn, htt, hff⟩

theorem numStop_arrTail (t : List Json) (rest : List Char) :
    numStop (arrTail t ++ ']' :: rest) = true := by
  cases t with
  | nil => simp [arrTail, numStop]
  | cons v t => simp [arrTail, numStop]

theorem numStop_objTail (t : List (String × Json)) (rest : List Char) :
    numStop (objTail t ++ '\x7d' :: rest) = true := by
  cases t with
  | nil => simp [objTail, numStop]
  | cons p t => obtain ⟨k, v⟩ := p; simp [objTail, numStop]

/-- One step of the parser on an array literal whose first element follows:
the dispatch reaches the element parse and then the tail loop. -/
theorem parseVal_arrStep (fuel : Nat) (v : Json) (X : List Char) :
    parseVal (fuel + 1) ('[' :: (stringifyChars v ++ X)) =
      (match parseVal fuel (stringifyChars v ++ X) with
       | none => none
       | some (w, r3) => parseArrRest fuel r3 [w]) := by
  obtain ⟨c2, t2, heq2, hws2, hne2⟩ := stringifyChars_head v
  rw [show stringifyChars v ++ X = c2 :: (t2 ++ X) from by simp [heq2]]
  simp only [parseVal]
  rw [skipWs_cons _ (by decide)]
  simp +decide [hne2]
  rw [skipWs_cons _ hws2]
  simp [hne2]

/-- One step of the parser on an object literal whose first field follows. -/
theorem parseVal_objStep (fuel : Nat) (k : String) (v : Json) (X : List Char) :
    parseVal (fuel + 1)
        ('\x7b' :: ('"' :: (escBody k.data ++ ('"' :: ':' :: (stringifyChars v ++ X))))) =
      (match parseVal fuel (stringifyChars v ++ X) with
       | none => none
       | some (w, r5) => parseObjRest fuel r5 [(k, w)]) := by
  simp only [parseVal]
  rw [skipWs_cons _ (by decide)]
  simp +decide
  rw [skipWs_cons _ (by decide)]
  simp +decide
  rw [show escBody k.data ++ ('"' :: ':' :: (stringifyChars v ++ X))
      = escBody k.data ++ '"' :: (':' :: (stringifyChars v ++ X)) from by simp]
  rw [parseStrBody_escBody k.data (':' :: (stringifyChars v ++ X))]
  simp +decide
  rw [skipWs_cons _ (by decide)]
  simp +decide

/-- The complete codec round-trip, by induction on the parser's fuel: with
enough fuel, parsing a rendered value (or a rendered array/object tail)
consumes exactly the rendered characters. -/
theorem parse_stringify_aux (fuel : Nat) :
    (∀ v rest, jsize v ≤ fuel → numStop rest = true →
      parseVal fuel (stringifyChars v ++ rest) = some (v, rest)) ∧
    (∀ t acc rest, jsizeTail t ≤ fuel →
      parseArrRest fuel (arrTail t ++ ']' :: rest) acc = some (.arr (acc ++ t), rest)) ∧
    (∀ t acc rest, jsizeObjTail t ≤ fuel →
      parseObjRest fuel (objTail t ++ '\x7d' :: rest) acc = some (.obj (acc ++ t), rest)) := by
  induction fuel with
  | zero =>
    refine ⟨fun v rest hs _ => absurd hs (by have := jsize_pos v; omega),
      fun t acc rest hs => absurd hs (by have := jsizeTail_pos t; omega),
      fun t acc rest hs => absurd hs (by have := jsizeObjTail_pos t; omega)⟩
  | succ fuel ih =>
    obtain ⟨ihV, ihA, ihO⟩ := ih
    refine ⟨?_, ?_, ?_⟩
    · intro v rest hs hr
      cases v with
      | null =>
        rw [show stringifyChars .null ++ rest = 'n' :: 'u' :: 'l' :: 'l' :: rest
          from by simp [stringifyChars]]
        simp only [parseVal]
        rw [skipWs_cons _ (by decide)]
        simp +decide
      | bool b =>
        cases b with
        | true =>
          rw [show stringifyChars (.bool true) ++ rest = 't' :: 'r' :: 'u' :: 'e' :: rest
            from by simp [stringifyChars]]
          simp only [parseVal]
          rw [skipWs_cons _ (by decide)]
          simp +decide
        | false =>
          rw [show stringifyChars (.bool false) ++ rest
              = 'f' :: 'a' :: 'l' :: 's' :: 'e' :: rest from by simp [stringifyChars]]
          simp only [parseVal]
          rw [skipWs_cons _ (by decide)]
          simp +decide
      | num n =>
        obtain ⟨c, t2, heq, hws, h1, h2, h3, h4, h5, h6⟩ := intChars_head n
        rw [show stringifyChars (.num n) ++ rest = c :: (t2 ++ rest)
          from by simp [stringifyChars, heq]]
        rw [parseVal_toNum fuel c _ hws h1 h2 h3 h4 h5 h6]
        rw [show c :: (t2 ++ rest) = intChars n ++ rest from by simp [heq]]
        exact parseNumTok_intChars n rest hr
      | str s =>
        rw [show stringifyChars (.str s) ++ rest = '"' :: (escBody s.data ++ ('"' :: rest))
          from by simp [stringifyChars]]
        simp only [parseVal]
        rw [skipWs_cons _ (by decide)]
        simp +decide [parseStrBody_escBody s.data rest]
      | arr xs =>
        cases xs with
        | nil =>
          rw [show stringifyChars (.arr []) ++ rest = '[' :: (']' :: rest)
            from by simp [stringifyChars]]
          simp only [parseVal]
          rw [skipWs_cons _ (by decide)]
          simp +decide
          rw [skipWs_cons _ (by decide)]
          simp +decide
        | cons v t =>
          simp only [jsize] at hs
          have hv : jsize v ≤ fuel := by have := jsizeTail_pos t; omega
          have ht : jsizeTail t ≤ fuel := by have := jsize_pos v; omega
          rw [show stringifyChars (.arr (v :: t)) ++ rest
              = '[' :: (stringifyChars v ++ (arrTail t ++ (']' :: rest)))
            from by simp [stringifyChars]]
          rw [parseVal_arrStep fuel v (arrTail t ++ ']' :: rest)]
          rw [ihV v (arrTail t ++ ']' :: rest) hv (numStop_arrTail t rest)]
          simp +decide
          rw [ihA t [v] rest ht]
          simp
      | obj fs =>
        cases fs with
        | nil =>
          rw [show stringifyChars (.obj []) ++ rest = '\x7b' :: ('\x7d' :: rest)
            from by simp [stringifyChars]]
          simp only [parseVal]
          rw [skipWs_cons _ (by decide)]
          simp +decide
          rw [skipWs_cons _ (by decide)]
          simp +decide
        | cons p t =>
          obtain ⟨k, v⟩ := p
          simp only [jsize] at hs
          have hv : jsize v ≤ fuel := by have := jsizeObjTail_pos t; omega
          have ht : jsizeObjTail t ≤ fuel := by have := jsize_pos v; omega
          rw [show stringifyChars (.obj ((k, v) :: t)) ++ rest
              = '\x7b' :: ('"' :: (escBody k.data
                  ++ ('"' :: ':' :: (stringifyChars v ++ (objTail t ++ ('\x7d' :: rest))))))
            from by simp [stringifyChars]]
          rw [parseVal_objStep fuel k v (objTail t ++ '\x7d' :: rest)]
          rw [ihV v (objTail t ++ '\x7d' :: rest) hv (numStop_objTail t rest)]
          simp +decide
          rw [ihO t [(k, v)] rest ht]
          simp
    · intro t acc rest hs
      cases t with
      | nil =>
        rw [show arrTail [] ++ ']' :: rest = ']' :: rest from by simp [arrTail]]
        simp only [parseArrRest]
        rw [skipWs_cons _ (by decide)]
        simp +decide
      | cons w t' =>
        simp only [jsizeTail] at hs
        have hw : jsize w ≤ fuel := by have := jsizeTail_pos t'; omega
        have ht' : jsizeTail t' ≤ fuel := by have := jsize_pos w; omega
        rw [show arrTail (w :: t') ++ ']' :: rest
            = ',' :: (stringifyChars w ++ (arrTail t' ++ (']' :: rest)))
          from by simp [arrTail]]
        simp only [parseArrRest]
        rw [skipWs_cons _ (by decide)]
        simp +decide
        rw [ihV w (arrTail t' ++ ']' :: rest) hw (numStop_arrTail t' rest)]
        simp +decide
        rw [ihA t' (acc ++ [w]) rest ht']
        simp
    · intro t acc rest hs
      cases t with
      | nil =>
        rw [show objTail [] ++ '\x7d' :: rest = '\x7d' :: rest from by simp [objTail]]
        simp only [parseObjRest]
        rw [skipWs_cons _ (by decide)]
        simp +decide
      | cons p t' =>
        obtain ⟨k, w⟩ := p
        simp only [jsizeObjTail] at hs
        have hw : jsize w ≤ fuel := by have := jsizeObjTail_pos t'; omega
        have ht' : jsizeObjTail t' ≤ fuel := by have := jsize_pos w; omega
        rw [show objTail ((k, w) :: t') ++ '\x7d' :: rest
            = ',' :: ('"' :: (escBody k.data
                ++ ('"' :: ':' :: (stringifyChars w ++ (objTail t' ++ ('\x7d' :: rest))))))
          from by simp [objTail]]
        simp only [parseObjRest]
        rw [skipWs_cons _ (by decide)]
        simp +decide
        rw [skipWs_cons _ (by decide)]
        simp +decide
        rw [parseStrBody_escBody k.data
          (':' :: (stringifyChars w ++ (objTail t' ++ ('\x7d' :: rest))))]
        simp +decide
        rw [skipWs_cons _ (by decide)]
        simp +decide
        rw [ihV w (objTail t' ++ '\x7d' :: rest) hw (numStop_objTail t' rest)]
        simp +decide
        rw [ihO t' (acc ++ [(k, w)]) rest ht']
        simp

theorem intChars_ne_nil (n : Int) : intChars n ≠ [] := by
  by_cases hn : n < 0 <;> simp [intChars, hn, natChars_ne_nil]

mutual

/-- The fuel a value needs is at most its rendered length. -/
theorem jsize_le_len : ∀ v : Json, jsize v ≤ (stringifyChars v).length
  | .null => by simp [jsize, stringifyChars]
  | .bool b => by cases b <;> simp [jsize, stringifyChars]
  | .num n => by
    have h := List.length_pos.mpr (intChars_ne_nil n)
    simp only [jsize, stringifyChars]
    omega
  | .str s => by
    simp only [jsize, stringifyChars, List.length_cons, List.length_append]
    omega
  | .arr [] => by simp [jsize, stringifyChars]
  | .arr (v :: t) => by
    have h1 := jsize_le_len v
    have h2 := jsizeTail_le_len t
    simp only [jsize, stringifyChars, List.length_cons, List.length_append]
    omega
  | .obj [] => by simp [jsize, stringifyChars]
  | .obj ((k, v) :: t) => by
    have h1 := jsize_le_len v
    have h2 := jsizeObjTail_le_len t
    simp only [jsize, stringifyChars, List.length_cons, List.length_append]
    omega

/-- The fuel an array tail needs is at most its rendered length plus one. -/
theorem jsizeTail_le_len : ∀ t : List Json, jsizeTail t ≤ (arrTail t).length + 1
  | [] => by simp [jsizeTail, arrTail]
  | w :: t' => by
    have h1 := jsize_le_len w
    have h2 := jsizeTail_le_len t'
    simp only [jsizeTail, arrTail, List.length_cons, List.length_append]
    omega

/-- The fuel an object tail needs is at most its rendered length plus one. -/
theorem jsizeObjTail_le_len : ∀ t : List (String × Json),
    jsizeObjTail t ≤ (objTail t).length + 1
  | [] => by simp [jsizeObjTail, objTail]
  | (k, w) :: t' => by
    have h1 := jsize_le_len w
    have h2 := jsizeObjTail_le_len t'
    simp only [jsizeObjTail, objTail, List.length_cons, List.length_append]
    omega

end

/-- The codec round-trip of the model: parsing a stringified value yields the
value back, for every modelled JSON value. -/
theorem jsonParse_stringify (v : Json) : jsonParse (stringify v) = some v := by
  have hlen : jsize v ≤ (stringifyChars v).length + 1 :=
    le_trans (jsize_le_len v) (by omega)
  have h := (parse_stringify_aux ((stringifyChars v).length + 1)).1 v [] hlen rfl
  rw [List.append_nil] at h
  simp only [jsonParse, stringify]
  rw [h]
  simp [skipWs]

/-! ## JavaScript value semantics

The helpers the handlers use: truthiness, property access and assignment on
parsed JSON values, `toUpperCase`/`toLowerCase` (which throw on non-strings),
string coercion, `atob`, and `String.prototype.endsWith`.  A thrown
JavaScript error is modelled as `JsError`; every value the handlers throw is
an `Error` carrying a message. -/

/-- A thrown JavaScript error (the handlers only ever observe `.message`). -/
structure JsError where
  msg : String

/-- JavaScript truthiness of a JSON value: `null`, `false`, `0` and `""` are
falsy; every array and object (even empty) is truthy. -/
def truthyJ : Json → Bool
  | .null => false
  | .bool b => b
  | .num n => n != 0
  | .str s => s != ""
  | .arr _ => true
  | .obj _ => true

/-- Truthiness of a possibly-absent value (`undefined` is falsy). -/
def truthy : Option Json → Bool
  | none => false
  | some v => truthyJ v

/-- Property read on a JSON value, as the handlers' destructuring and
`headers["Content-Type"]` do: objects yield the named field (the last
occurrence, matching `JSON.parse`'s last-wins duplicate handling), and
primitives and arrays have none of the handler-read properties.  Reading a
property of `null` throws in JavaScript; the handlers reach `getField` only
on non-null values. -/
def getField (v : Json) (k : String) : Option Json :=
  match v with
  | .obj fs => fs.foldl (fun acc p => if p.1 == k then some p.2 else acc) none
  | _ => none

/-- Assign (or append) a field of an object field list, as
`headers["Content-Type"] = …` does on an object. -/
def setFields (fs : List (String × Json)) (k : String) (val : Json) :
    List (String × Json) :=
  if fs.any (fun p => p.1 == k) then fs.map (fun p => if p.1 == k then (k, val) else p)
  else fs ++ [(k, val)]

/-- Property assignment on a JSON value.  The workers run as modules (strict
mode), where assigning a property of a primitive throws a `TypeError`; the
JSON model cannot carry extra properties on arrays, so those are modelled as
errors too (no claim exercises them). -/
def jsSetProp (v : Json) (k : String) (val : Json) : Except JsError Json :=
  match v with
  | .obj fs => .ok (.obj (setFields fs k val))
  | _ => .error ⟨"Cannot create property"⟩

/-- ASCII uppercase of one character (the handlers only uppercase HTTP method
names, which are ASCII). -/
def charUpper (c : Char) : Char :=
  if 'a' ≤ c && c ≤ 'z' then Char.ofNat (c.toNat - 32) else c

/-- ASCII lowercase of one character. -/
def charLower (c : Char) : Char :=
  if 'A' ≤ c && c ≤ 'Z' then Char.ofNat (c.toNat + 32) else c

/-- The model of `String.prototype.toUpperCase` on the string contents. -/
def jsUpper (s : String) : String := String.mk (s.data.map charUpper)

/-- The model of `String.prototype.toLowerCase` on the string contents. -/
def jsLower (s : String) : String := String.mk (s.data.map charLower)

/-- `value.toUpperCase()`: defined on strings, a thrown `TypeError` on every
other JSON value. -/
def jsToUpperCase : Json → Except JsError String
  | .str s => .ok (jsUpper s)
  | _ => .error ⟨"toUpperCase is not a function"⟩

/-- `value.toLowerCase()`: defined on strings, a thrown `TypeError`
otherwise. -/
def jsToLowerCase : Json → Except JsError String
  | .str s => .ok (jsLower s)
  | _ => .error ⟨"toLowerCase is not a function"⟩

mutual

/-- JavaScript `ToString` of a JSON value (`template literals`, `atob`'s
argument coercion, `FormData.append`).  Arrays join their elements with `,`,
rendering `null` elements as the empty string. -/
def jsToString : Json → String
  | .null => "null"
  | .bool b => if b then "true" else "false"
  | .num n => String.mk (intChars n)
  | .str s => s
  | .obj _ => "[object Object]"
  | .arr xs => String.intercalate "," (jsArrStrings xs)

/-- Element strings of `Array.prototype.join`: `null` becomes empty. -/
def jsArrStrings : List Json → List String
  | [] => []
  | .null :: t => "" :: jsArrStrings t
  | v :: t => jsToString v :: jsArrStrings t

end

/-- ASCII whitespace removed by forgiving-base64 (`atob`). -/
def isB64Ws (c : Char) : Bool :=
  c = '\t' || c = '\n' || c = '\x0c' || c = '\r' || c = ' '

/-- The base64 alphabet value of a character. -/
def b64Val (c : Char) : Option Nat :=
  if 'A' ≤ c && c ≤ 'Z' then some (c.toNat - 65)
  else if 'a' ≤ c && c ≤ 'z' then some (c.toNat - 97 + 26)
  else if '0' ≤ c && c ≤ '9' then some (c.toNat - 48 + 52)
  else if c = '+' then some 62
  else if c = '/' then some 63
  else none

/-- Remove up to two trailing `=` padding characters. -/
def dropB64Pad (cs : List Char) : List Char :=
  match cs.reverse with
  | '=' :: '=' :: t => t.reverse
  | '=' :: t => t.reverse
  | _ => cs

/-- Decode base64 sextets into bytes, discarding leftover bits of a final
partial group, as forgiving-base64 does. -/
def b64Chunks : List Nat → Option (List Nat)
  | [] => some []
  | [_] => none
  | [a, b] => some [a * 4 + b / 16]
  | [a, b, c] => some [a * 4 + b / 16, b % 16 * 16 + c / 4]
  | a :: b :: c :: d :: rest =>
    (b64Chunks rest).map
      (fun t => (a * 4 + b / 16) :: ((b % 16 * 16 + c / 4) :: ((c % 4 * 64 + d) :: t)))

/-- The model of `atob` (WHATWG forgiving-base64 decode): strip ASCII
whitespace, strip up to two `=` of padding when the length is a multiple of
four, reject a remainder of one, reject characters outside the alphabet, and
emit one Latin-1 character per decoded byte.  `none` models the thrown
`InvalidCharacterError`. -/
def b64Vals : List Char → Option (List Nat)
  | [] => some []
  | c :: t =>
    match b64Val c, b64Vals t with
    | some v, some vs => some (v :: vs)
    | _, _ => none

def atob (s : String) : Option String :=
  let cs := (s.data.filter (fun c => !isB64Ws c))
  let cs2 := if cs.length % 4 == 0 then dropB64Pad cs else cs
  if cs2.length % 4 == 1 then none
  else
    match b64Vals cs2 with
    | none => none
    | some vals =>
      match b64Chunks vals with
      | none => none
      | some bytes => some (String.mk (bytes.map Char.ofNat))

example : atob "QUJD" = some "ABC" := by rfl
example : atob "SGk=" = some "Hi" := by rfl
example : atob "!!!" = none := by rfl
example : atob "QQ" = some "A" := by rfl

/-- The cf-worker upload decode loop: `bytes[i] = binaryStr.charCodeAt(i)`,
index by index over the string length, each write truncated to a byte as a
`Uint8Array` store does. -/
def charCodeAt (s : String) (i : Nat) : Nat :=
  ((s.data.get? i).map Char.toNat).getD 0

/-- `cf-worker-proxy.js`/`cf-worker-upload.js` lines 148–151: the per-index
`charCodeAt` loop filling a `Uint8Array`. -/
def decodeBytesLoop (binaryStr : String) : List Nat :=
  (List.range binaryStr.length).map (fun i => charCodeAt binaryStr i % 256)

/-- `supabase-edge-proxy.ts` line 145: `Uint8Array.from(atob(…), (c) =>
c.charCodeAt(0))`, mapping each character to its code, truncated to a byte. -/
def decodeBytesFrom (binaryStr : String) : List Nat :=
  binaryStr.data.map (fun c => c.toNat % 256)

/-- The two decodings agree on every string. -/
theorem decodeBytes_eq (s : String) : decodeBytesLoop s = decodeBytesFrom s := by
  have key : ∀ l : List Char,
      (List.range l.length).map (fun i => (((l.get? i).map Char.toNat).getD 0) % 256)
        = l.map (fun c => c.toNat % 256) := by
    intro l
    induction l with
    | nil => simp
    | cons c t ih =>
      rw [List.length_cons, List.range_succ_eq_map, List.map_cons, List.map_map]
      have hhead : ((((c :: t).get? 0).map Char.toNat).getD 0) % 256 = c.toNat % 256 := by
        simp
      have htail : List.map ((fun i => (((c :: t).get? i).map Char.toNat).getD 0 % 256)
            ∘ Nat.succ) (List.range t.length)
          = List.map (fun i => ((t.get? i).map Char.toNat).getD 0 % 256)
              (List.range t.length) := by
        refine List.map_congr_left ?_
        intro i _
        simp [Function.comp]
      rw [hhead, htail, ih, List.map_cons]
  exact key s.data

/-- The model of `String.prototype.endsWith` (suffix of the character
sequence). -/
def jsEndsWith (s suffix : String) : Bool := suffix.data.isSuffixOf s.data

/-- The MIME cascade of `handleUpload` applied to the already-lowercased
filename (source lines 153–162 of `cf-worker-proxy.js`). -/
def mimeFromLower (lowerFilename : String) : String :=
  if jsEndsWith lowerFilename ".jpg" || jsEndsWith lowerFilename ".jpeg" then "image/jpeg"
  else if jsEndsWith lowerFilename ".webp" then "image/webp"
  else if jsEndsWith lowerFilename ".gif" then "image/gif"
  else "image/png"

/-- MIME type inference of the upload relay: lowercase the filename, then
apply the extension cascade. -/
def getMimeType (filename : String) : String := mimeFromLower (jsLower filename)

example : getMimeType "photo.JPG" = "image/jpeg" := by rfl
example : getMimeType "icon.webp" = "image/webp" := by rfl
example : getMimeType "anim.gif" = "image/gif" := by rfl
example : getMimeType "picture.bmp" = "image/png" := by rfl

/-! ## The HTTP model

Requests and responses at the boundary of the workers, the upstream call
record passed to `fetch`, and the network oracle.  The oracle maps each
upstream call either to a rejection (network failure) or to the response
text and status the handler then reads — the handlers' only effect besides
their return value is the list of calls they make, which `HResult`
records. -/

/-- An outbound HTTP response as the workers build it. -/
structure HttpResponse where
  status : Nat
  headers : List (String × String)
  body : Option String

/-- One part of a `multipart/form-data` body built via `FormData`. -/
inductive FormPart where
  | file (name : String) (bytes : List Nat) (mime : String) (filename : String)
  | text (name : String) (value : String)

/-- The body attached to an upstream `fetch` call. -/
inductive BodyInit where
  | jsonText (s : String)
  | form (parts : List FormPart)

/-- One upstream `fetch` call: the raw url value, the method, the headers
value, and the optional body. -/
structure UpstreamCall where
  url : Json
  method : String
  headers : Json
  body : Option BodyInit

/-- What the network does with a call: reject with an error, or complete
with response text and status. -/
abbrev FetchOutcome := Except JsError (String × Nat)

/-- A handler run: the upstream calls it made, in order, and its response. -/
structure HResult where
  calls : List UpstreamCall
  response : HttpResponse

/-- The fixed `User-Agent` string the upload relay sends. -/
def uaHeaderValue : String := "Sora/1.2026.007 (Android 15; 24122RKC7C; build 2600700)"

/-- Modelled from the runtime: the engine-specific message of the
`SyntaxError` thrown by `JSON.parse` on malformed input (its exact text is
engine-defined; no claim depends on it). -/
def jsonSyntaxErrMsg : String := "Unexpected token in JSON"

/-- Modelled from the runtime: the `TypeError` message for destructuring
`null`. -/
def destructureNullMsg : String := "Cannot destructure property of null"

/-- Modelled from the runtime: the `InvalidCharacterError` message of a
failed `atob`. -/
def invalidCharMsg : String := "The string to be decoded is not correctly encoded"

/-- The error envelope `{ error, message }` the catch blocks build. -/
def errBody (name msg : String) : Json :=
  .obj [("error", .str name), ("message", .str msg)]

/-- `jsonResponse(data, status)`: serialize the body and attach the two
fixed headers (identical in all three source files). -/
def jsonResponse (data : Json) (status : Nat) : HttpResponse :=
  ⟨status, [("Content-Type", "application/json"), ("Access-Control-Allow-Origin", "*")],
    some (stringify data)⟩

/-- The CORS preflight headers (`handleCORS`). -/
def corsHeaderList : List (String × String) :=
  [("Access-Control-Allow-Origin", "*"),
   ("Access-Control-Allow-Methods", "GET, POST, OPTIONS"),
   ("Access-Control-Allow-Headers", "Content-Type, Authorization"),
   ("Access-Control-Max-Age", "86400")]

/-- The Response Normalizer's body: the parsed JSON of the upstream text, or
the `raw_response` wrapper when parsing fails. -/
def normalizeVal (t : String) : Json :=
  match jsonParse t with
  | some v => v
  | none => .obj [("raw_response", .str t)]

/-- The Response Normalizer as a response: normalized body with the
upstream's status (`jsonResponse(responseData, response.status)`). -/
def normalizeResp (t : String) (status : Nat) : HttpResponse :=
  jsonResponse (normalizeVal t) status

/-- The shared tail of both relays: perform the single `fetch`, normalize a
completed response, and convert a rejection into the operation's 500
envelope.  (This text is identical in all three source files.) -/
def relayFetch (up : UpstreamCall → FetchOutcome) (url : Json) (method : String)
    (headers : Json) (body : Option BodyInit) (errName : String) : HResult :=
  let call : UpstreamCall := ⟨url, method, headers, body⟩
  match up call with
  | .error e => ⟨[call], jsonResponse (errBody errName e.msg) 500⟩
  | .ok p => ⟨[call], normalizeResp p.1 p.2⟩

/-- An inbound HTTP request as the routers see it. -/
structure HttpRequest where
  method : String
  path : String
  body : String

/-! ## `cf-worker-proxy.js`

The generic proxy plus the upload relay, and the worker's `fetch` router. -/

namespace CfProxy

/-- `handleProxy` after a successful `request.json()`, on non-`null` data
(the destructuring step): validation, call construction, fetch,
normalization (source lines 77–122). -/
def handleProxyGo (data : Json) (up : UpstreamCall → FetchOutcome) : HResult :=
  let method := getField data "method"
  let url := getField data "url"
  let headers := getField data "headers"
  let body := getField data "body"
  if !truthy method || !truthy url then
    ⟨[], jsonResponse (.obj [("error", .str "Missing required fields: method, url")]) 400⟩
  else
    match jsToUpperCase (method.getD .null) with
    | .error e => ⟨[], jsonResponse (errBody "Proxy request failed" e.msg) 500⟩
    | .ok mUC =>
      let hdrs0 : Json := if truthy headers then headers.getD .null else .obj []
      if mUC == "POST" && truthy body then
        if !truthy (getField hdrs0 "Content-Type") then
          match jsSetProp hdrs0 "Content-Type" (.str "application/json") with
          | .error e => ⟨[], jsonResponse (errBody "Proxy request failed" e.msg) 500⟩
          | .ok hdrs1 =>
            relayFetch up (url.getD .null) mUC hdrs1
              (some (.jsonText (stringify (body.getD .null)))) "Proxy request failed"
        else
          relayFetch up (url.getD .null) mUC hdrs0
            (some (.jsonText (stringify (body.getD .null)))) "Proxy request failed"
      else relayFetch up (url.getD .null) mUC hdrs0 none "Proxy request failed"

/-- `handleProxy` on the parsed request body: destructuring `null` throws
into the catch block; otherwise continue with `handleProxyGo`. -/
def handleProxyData (data : Json) (up : UpstreamCall → FetchOutcome) : HResult :=
  match data with
  | .null => ⟨[], jsonResponse (errBody "Proxy request failed" destructureNullMsg) 500⟩
  | _ => handleProxyGo data up

/-- `handleProxy` (source lines 74–123): parse the request text; a
`JSON.parse` failure lands in the catch block as a 500. -/
def handleProxy (bodyText : String) (up : UpstreamCall → FetchOutcome) : HResult :=
  match jsonParse bodyText with
  | none => ⟨[], jsonResponse (errBody "Proxy request failed" jsonSyntaxErrMsg) 500⟩
  | some data => handleProxyData data up

/-- `handleUpload` after a successful `request.json()`, on non-`null` data:
validation, base64 decode (per-index loop), MIME inference, form build,
fetch, normalization (source lines 139–191). -/
def handleUploadGo (data : Json) (up : UpstreamCall → FetchOutcome) : HResult :=
  let image_data := getField data "image_data"
  let filename := getField data "filename"
  let token := getField data "token"
  let target_url := getField data "target_url"
  if !truthy image_data || !truthy filename || !truthy token || !truthy target_url then
    ⟨[], jsonResponse
      (.obj [("error", .str "Missing required fields: image_data, filename, token, target_url")])
      400⟩
  else
    match atob (jsToString (image_data.getD .null)) with
    | none => ⟨[], jsonResponse (errBody "Upload failed" invalidCharMsg) 500⟩
    | some binaryStr =>
      let bytes := decodeBytesLoop binaryStr
      match jsToLowerCase (filename.getD .null) with
      | .error e => ⟨[], jsonResponse (errBody "Upload failed" e.msg) 500⟩
      | .ok lowerFilename =>
        let mimeType := mimeFromLower lowerFilename
        let fname := jsToString (filename.getD .null)
        relayFetch up (target_url.getD .null) "POST"
          (.obj [("Authorization", .str ("Bearer " ++ jsToString (token.getD .null))),
                 ("User-Agent", .str uaHeaderValue)])
          (some (.form [.file "file" bytes mimeType fname, .text "file_name" fname]))
          "Upload failed"

/-- `handleUpload` on the parsed request body. -/
def handleUploadData (data : Json) (up : UpstreamCall → FetchOutcome) : HResult :=
  match data with
  | .null => ⟨[], jsonResponse (errBody "Upload failed" destructureNullMsg) 500⟩
  | _ => handleUploadGo data up

/-- `handleUpload` (source lines 136–199). -/
def handleUpload (bodyText : String) (up : UpstreamCall → FetchOutcome) : HResult :=
  match jsonParse bodyText with
  | none => ⟨[], jsonResponse (errBody "Upload failed" jsonSyntaxErrMsg) 500⟩
  | some data => handleUploadData data up

/-- The worker's `fetch` router (source lines 17–47).  `now` stands for
`new Date().toISOString()`.  Note the `/health` and not-found responses set
only `Content-Type` (no CORS header), unlike `jsonResponse`. -/
def workerFetch (req : HttpRequest) (now : String) (up : UpstreamCall → FetchOutcome) :
    HResult :=
  if req.method == "OPTIONS" then ⟨[], ⟨200, corsHeaderList, none⟩⟩
  else if req.path == "/proxy" && req.method == "POST" then handleProxy req.body up
  else if req.path == "/upload" && req.method == "POST" then handleUpload req.body up
  else if req.path == "/health" then
    ⟨[], ⟨200, [("Content-Type", "application/json")],
      some (stringify (.obj [("status", .str "ok"), ("timestamp", .str now)]))⟩⟩
  else
    ⟨[], ⟨404, [("Content-Type", "application/json")],
      some (stringify (.obj [("error", .str "Not Found")]))⟩⟩

end CfProxy

/-! ## `cf-worker-upload.js`

The standalone upload worker: textually the same `handleUpload` as in
`cf-worker-proxy.js`, and a router without the `/proxy` route. -/

namespace CfUpload

/-- `handleUpload` body on non-`null` parsed data (source lines 73–125,
textually identical to `cf-worker-proxy.js` lines 139–191). -/
def handleUploadGo (data : Json) (up : UpstreamCall → FetchOutcome) : HResult :=
  let image_data := getField data "image_data"
  let filename := getField data "filename"
  let token := getField data "token"
  let target_url := getField data "target_url"
  if !truthy image_data || !truthy filename || !truthy token || !truthy target_url then
    ⟨[], jsonResponse
      (.obj [("error", .str "Missing required fields: image_data, filename, token, target_url")])
      400⟩
  else
    match atob (jsToString (image_data.getD .null)) with
    | none => ⟨[], jsonResponse (errBody "Upload failed" invalidCharMsg) 500⟩
    | some binaryStr =>
      let bytes := decodeBytesLoop binaryStr
      match jsToLowerCase (filename.getD .null) with
      | .error e => ⟨[], jsonResponse (errBody "Upload failed" e.msg) 500⟩
      | .ok lowerFilename =>
        let mimeType := mimeFromLower lowerFilename
        let fname := jsToString (filename.getD .null)
        relayFetch up (target_url.getD .null) "POST"
          (.obj [("Authorization", .str ("Bearer " ++ jsToString (token.getD .null))),
                 ("User-Agent", .str uaHeaderValue)])
          (some (.form [.file "file" bytes mimeType fname, .text "file_name" fname]))
          "Upload failed"

/-- `handleUpload` on the parsed request body. -/
def handleUploadData (data : Json) (up : UpstreamCall → FetchOutcome) : HResult :=
  match data with
  | .null => ⟨[], jsonResponse (errBody "Upload failed" destructureNullMsg) 500⟩
  | _ => handleUploadGo data up

/-- `handleUpload` (source lines 70–133). -/
def handleUpload (bodyText : String) (up : UpstreamCall → FetchOutcome) : HResult :=
  match jsonParse bodyText with
  | none => ⟨[], jsonResponse (errBody "Upload failed" jsonSyntaxErrMsg) 500⟩
  | some data => handleUploadData data up

/-- The worker's `fetch` router (source lines 17–43): no `/proxy` route. -/
def workerFetch (req : HttpRequest) (now : String) (up : UpstreamCall → FetchOutcome) :
    HResult :=
  if req.method == "OPTIONS" then ⟨[], ⟨200, corsHeaderList, none⟩⟩
  else if req.path == "/upload" && req.method == "POST" then handleUpload req.body up
  else if req.path == "/health" then
    ⟨[], ⟨200, [("Content-Type", "application/json")],
      some (stringify (.obj [("status", .str "ok"), ("timestamp", .str now)]))⟩⟩
  else
    ⟨[], ⟨404, [("Content-Type", "application/json")],
      some (stringify (.obj [("error", .str "Not Found")]))⟩⟩

end CfUpload

/-! ## `supabase-edge-proxy.ts`

Same two handlers with two textual differences — `handleProxy`'s
Content-Type guard also tests `!fetchOptions.headers`, and `handleUpload`
decodes with `Uint8Array.from` — plus a `serve` router that matches path
suffixes and emits health/not-found through `jsonResponse`. -/

namespace Supa

/-- `handleProxy` body on non-`null` parsed data (source lines 64–104).  The
guard `!fetchOptions.headers || !(…)["Content-Type"]` is kept verbatim. -/
def handleProxyGo (data : Json) (up : UpstreamCall → FetchOutcome) : HResult :=
  let method := getField data "method"
  let url := getField data "url"
  let headers := getField data "headers"
  let body := getField data "body"
  if !truthy method || !truthy url then
    ⟨[], jsonResponse (.obj [("error", .str "Missing required fields: method, url")]) 400⟩
  else
    match jsToUpperCase (method.getD .null) with
    | .error e => ⟨[], jsonResponse (errBody "Proxy request failed" e.msg) 500⟩
    | .ok mUC =>
      let hdrs0 : Json := if truthy headers then headers.getD .null else .obj []
      if mUC == "POST" && truthy body then
        if !truthyJ hdrs0 || !truthy (getField hdrs0 "Content-Type") then
          match jsSetProp hdrs0 "Content-Type" (.str "application/json") with
          | .error e => ⟨[], jsonResponse (errBody "Proxy request failed" e.msg) 500⟩
          | .ok hdrs1 =>
            relayFetch up (url.getD .null) mUC hdrs1
              (some (.jsonText (stringify (body.getD .null)))) "Proxy request failed"
        else
          relayFetch up (url.getD .null) mUC hdrs0
            (some (.jsonText (stringify (body.getD .null)))) "Proxy request failed"
      else relayFetch up (url.getD .null) mUC hdrs0 none "Proxy request failed"

/-- `handleProxy` on the parsed request body. -/
def handleProxyData (data : Json) (up : UpstreamCall → FetchOutcome) : HResult :=
  match data with
  | .null => ⟨[], jsonResponse (errBody "Proxy request failed" destructureNullMsg) 500⟩
  | _ => handleProxyGo data up

/-- `handleProxy` (source lines 61–115). -/
def handleProxy (bodyText : String) (up : UpstreamCall → FetchOutcome) : HResult :=
  match jsonParse bodyText with
  | none => ⟨[], jsonResponse (errBody "Proxy request failed" jsonSyntaxErrMsg) 500⟩
  | some data => handleProxyData data up

/-- `handleUpload` body on non-`null` parsed data (source lines 131–184):
decodes via `Uint8Array.from(atob(…), (c) => c.charCodeAt(0))`. -/
def handleUploadGo (data : Json) (up : UpstreamCall → FetchOutcome) : HResult :=
  let image_data := getField data "image_data"
  let filename := getField data "filename"
  let token := getField data "token"
  let target_url := getField data "target_url"
  if !truthy image_data || !truthy filename || !truthy token || !truthy target_url then
    ⟨[], jsonResponse
      (.obj [("error", .str "Missing required fields: image_data, filename, token, target_url")])
      400⟩
  else
    match atob (jsToString (image_data.getD .null)) with
    | none => ⟨[], jsonResponse (errBody "Upload failed" invalidCharMsg) 500⟩
    | some binaryStr =>
      let binaryData := decodeBytesFrom binaryStr
      match jsToLowerCase (filename.getD .null) with
      | .error e => ⟨[], jsonResponse (errBody "Upload failed" e.msg) 500⟩
      | .ok lowerFilename =>
        let mimeType := mimeFromLower lowerFilename
        let fname := jsToString (filename.getD .null)
        relayFetch up (target_url.getD .null) "POST"
          (.obj [("Authorization", .str ("Bearer " ++ jsToString (token.getD .null))),
                 ("User-Agent", .str uaHeaderValue)])
          (some (.form [.file "file" binaryData mimeType fname, .text "file_name" fname]))
          "Upload failed"

/-- `handleUpload` on the parsed request body. -/
def handleUploadData (data : Json) (up : UpstreamCall → FetchOutcome) : HResult :=
  match data with
  | .null => ⟨[], jsonResponse (errBody "Upload failed" destructureNullMsg) 500⟩
  | _ => handleUploadGo data up

/-- `handleUpload` (source lines 128–195). -/
def handleUpload (bodyText : String) (up : UpstreamCall → FetchOutcome) : HResult :=
  match jsonParse bodyText with
  | none => ⟨[], jsonResponse (errBody "Upload failed" jsonSyntaxErrMsg) 500⟩
  | some data => handleUploadData data up

/-- The `serve` router (source lines 198–224): suffix matching, and health
and not-found responses built by `jsonResponse` (status 200 is
`jsonResponse`'s default in the source). -/
def serveHandler (req : HttpRequest) (now : String) (up : UpstreamCall → FetchOutcome) :
    HResult :=
  if req.method == "OPTIONS" then ⟨[], ⟨200, corsHeaderList, none⟩⟩
  else if jsEndsWith req.path "/proxy" && req.method == "POST" then handleProxy req.body up
  else if jsEndsWith req.path "/upload" && req.method == "POST" then handleUpload req.body up
  else if jsEndsWith req.path "/health" then
    ⟨[], jsonResponse (.obj [("status", .str "ok"), ("timestamp", .str now)]) 200⟩
  else ⟨[], jsonResponse (.obj [("error", .str "Not Found")]) 404⟩

end Supa

/-! ## Supporting lemmas shared by the claim proofs -/

/-- A value with a readable field is an object. -/
theorem getField_some_obj {data : Json} {k : String} {v : Json}
    (h : getField data k = some v) : ∃ fs, data = .obj fs := by
  cases data with
  | obj fs => exact ⟨fs, rfl⟩
  | _ => simp [getField] at h

theorem truthy_some_str {s : String} (h : s ≠ "") :
    truthy (some (.str s)) = true := by
  simp [truthy, truthyJ, h]

theorem truthy_of_missing {o : Option Json}
    (h : o = none ∨ o = some (.str "")) : truthy o = false := by
  rcases h with rfl | rfl <;> simp [truthy, truthyJ]

/-- An object-valued field is always truthy. -/
theorem truthy_some_obj (l : List (String × Json)) :
    truthy (some (.obj l)) = true := rfl

theorem cfProxy_handleProxyData_obj (fs : List (String × Json))
    (up : UpstreamCall → FetchOutcome) :
    CfProxy.handleProxyData (.obj fs) up = CfProxy.handleProxyGo (.obj fs) up := rfl

theorem cfProxy_handleUploadData_obj (fs : List (String × Json))
    (up : UpstreamCall → FetchOutcome) :
    CfProxy.handleUploadData (.obj fs) up = CfProxy.handleUploadGo (.obj fs) up := rfl

theorem cfUpload_handleUploadData_obj (fs : List (String × Json))
    (up : UpstreamCall → FetchOutcome) :
    CfUpload.handleUploadData (.obj fs) up = CfUpload.handleUploadGo (.obj fs) up := rfl

theorem supa_handleUploadData_obj (fs : List (String × Json))
    (up : UpstreamCall → FetchOutcome) :
    Supa.handleUploadData (.obj fs) up = Supa.handleUploadGo (.obj fs) up := rfl

theorem relayFetch_calls (up : UpstreamCall → FetchOutcome) (url : Json) (m : String)
    (hd : Json) (b : Option BodyInit) (e : String) :
    (relayFetch up url m hd b e).calls = [⟨url, m, hd, b⟩] := by
  simp only [relayFetch]
  cases hup : up ⟨url, m, hd, b⟩ <;> simp [hup]

theorem relayFetch_ok (up : UpstreamCall → FetchOutcome) (url : Json) (m : String)
    (hd : Json) (b : Option BodyInit) (e : String) (t : String) (s' : Nat)
    (h : up ⟨url, m, hd, b⟩ = .ok (t, s')) :
    relayFetch up url m hd b e = ⟨[⟨url, m, hd, b⟩], normalizeResp t s'⟩ := by
  simp only [relayFetch]
  rw [h]

theorem relayFetch_headers (up : UpstreamCall → FetchOutcome) (url : Json) (m : String)
    (hd : Json) (b : Option BodyInit) (e : String) :
    (relayFetch up url m hd b e).response.headers
      = [("Content-Type", "application/json"), ("Access-Control-Allow-Origin", "*")] := by
  simp only [relayFetch]
  cases hup : up ⟨url, m, hd, b⟩ <;> simp [hup, jsonResponse, normalizeResp]

/-- Parsing a stringified value back through the Normalizer recovers the
value (the round-trip, at the level the handlers use it). -/
theorem normalizeResp_stringify (v : Json) (s : Nat) :
    normalizeResp (stringify v) s = jsonResponse v s := by
  simp [normalizeResp, normalizeVal, jsonParse_stringify]

theorem cfProxy_handleProxyData_ne_null {data : Json} (up : UpstreamCall → FetchOutcome)
    (hnn : data ≠ .null) :
    CfProxy.handleProxyData data up = CfProxy.handleProxyGo data up := by
  cases data <;> first | exact absurd rfl hnn | rfl

theorem cfProxy_handleUploadData_ne_null {data : Json} (up : UpstreamCall → FetchOutcome)
    (hnn : data ≠ .null) :
    CfProxy.handleUploadData data up = CfProxy.handleUploadGo data up := by
  cases data <;> first | exact absurd rfl hnn | rfl

theorem cfUpload_handleUploadData_ne_null {data : Json} (up : UpstreamCall → FetchOutcome)
    (hnn : data ≠ .null) :
    CfUpload.handleUploadData data up = CfUpload.handleUploadGo data up := by
  cases data <;> first | exact absurd rfl hnn | rfl

theorem supa_handleUploadData_ne_null {data : Json} (up : UpstreamCall → FetchOutcome)
    (hnn : data ≠ .null) :
    Supa.handleUploadData data up = Supa.handleUploadGo data up := by
  cases data <;> first | exact absurd rfl hnn | rfl

/-! ## The claims -/

/-- C3: for every filename string, the upload relay's inferred MIME type is
computed from the lower-cased filename by first match in this exact order:
`image/jpeg` if it ends in `.jpg` or `.jpeg`, else `image/webp` if it ends
in `.webp`, else `image/gif` if it ends in `.gif`, else the default
`image/png`; in particular `photo.JPG` yields `image/jpeg` and
`picture.bmp` yields `image/png`. -/
theorem c3_mime_type_inference :
    (∀ f : String,
      ((jsEndsWith (jsLower f) ".jpg" || jsEndsWith (jsLower f) ".jpeg") = true →
        getMimeType f = "image/jpeg") ∧
      ((jsEndsWith (jsLower f) ".jpg" || jsEndsWith (jsLower f) ".jpeg") = false →
        jsEndsWith (jsLower f) ".webp" = true → getMimeType f = "image/webp") ∧
      ((jsEndsWith (jsLower f) ".jpg" || jsEndsWith (jsLower f) ".jpeg") = false →
        jsEndsWith (jsLower f) ".webp" = false →
        jsEndsWith (jsLower f) ".gif" = true → getMimeType f = "image/gif") ∧
      ((jsEndsWith (jsLower f) ".jpg" || jsEndsWith (jsLower f) ".jpeg") = false →
        jsEndsWith (jsLower f) ".webp" = false →
        jsEndsWith (jsLower f) ".gif" = false → getMimeType f = "image/png")) ∧
    getMimeType "photo.JPG" = "image/jpeg" ∧ getMimeType "picture.bmp" = "image/png" := by
  refine ⟨fun f => ⟨?_, ?_, ?_, ?_⟩, rfl, rfl⟩ <;>
    · intros
      simp_all [getMimeType, mimeFromLower]

/-- Witness for C3 at the spec's remaining two examples, discharging the
branch hypotheses concretely. -/
theorem c3_mime_type_inference_witness :
    getMimeType "icon.webp" = "image/webp" ∧ getMimeType "anim.gif" = "image/gif" :=
  ⟨(c3_mime_type_inference.1 "icon.webp").2.1 (by rfl) (by rfl),
   (c3_mime_type_inference.1 "anim.gif").2.2.1 (by rfl) (by rfl) (by rfl)⟩

/-- C6: on every upstream text that fails JSON parsing the Response
Normalizer produces the `raw_response` wrapper holding the text verbatim
with the status unchanged; and it is total — for every (text, status) it
returns a well-formed response with the given status and some body, never
throwing. -/
theorem c6_normalizer_fallback_total (t : String) (s : Nat) :
    (jsonParse t = none →
      normalizeResp t s = jsonResponse (.obj [("raw_response", .str t)]) s) ∧
    (normalizeResp t s).status = s ∧
    ∃ b, (normalizeResp t s).body = some b := by
  refine ⟨fun h => by simp [normalizeResp, normalizeVal, h], rfl, ⟨_, rfl⟩⟩

/-- Witness for C6 at the non-JSON text `"hello"` and status 418. -/
theorem c6_normalizer_fallback_total_witness :
    normalizeResp "hello" 418 = jsonResponse (.obj [("raw_response", .str "hello")]) 418 ∧
    (normalizeResp "hello" 418).status = 418 :=
  ⟨(c6_normalizer_fallback_total "hello" 418).1 rfl,
   (c6_normalizer_fallback_total "hello" 418).2.1⟩

/-- C10: a `POST /proxy` or `POST /upload` body that is not valid JSON lands
in the catch block: status 500 with error `Proxy request failed`
(respectively `Upload failed`), never a 400, and no upstream call is made,
in each of the three implementations. -/
theorem c10_malformed_body (t : String) (up : UpstreamCall → FetchOutcome)
    (h : jsonParse t = none) :
    CfProxy.handleProxy t up
      = ⟨[], jsonResponse (errBody "Proxy request failed" jsonSyntaxErrMsg) 500⟩ ∧
    CfProxy.handleUpload t up
      = ⟨[], jsonResponse (errBody "Upload failed" jsonSyntaxErrMsg) 500⟩ ∧
    CfUpload.handleUpload t up
      = ⟨[], jsonResponse (errBody "Upload failed" jsonSyntaxErrMsg) 500⟩ ∧
    Supa.handleProxy t up
      = ⟨[], jsonResponse (errBody "Proxy request failed" jsonSyntaxErrMsg) 500⟩ ∧
    Supa.handleUpload t up
      = ⟨[], jsonResponse (errBody "Upload failed" jsonSyntaxErrMsg) 500⟩ := by
  refine ⟨?_, ?_, ?_, ?_, ?_⟩ <;>
    simp [CfProxy.handleProxy, CfProxy.handleUpload, CfUpload.handleUpload,
      Supa.handleProxy, Supa.handleUpload, h]

/-- Witness for C10 at the non-JSON body `"hello"`. -/
theorem c10_malformed_body_witness :
    CfProxy.handleProxy "hello" (fun _ => .ok ("", 200))
      = ⟨[], jsonResponse (errBody "Proxy request failed" jsonSyntaxErrMsg) 500⟩ ∧
    CfUpload.handleUpload "hello" (fun _ => .ok ("", 200))
      = ⟨[], jsonResponse (errBody "Upload failed" jsonSyntaxErrMsg) 500⟩ :=
  ⟨(c10_malformed_body "hello" (fun _ => .ok ("", 200)) rfl).1,
   (c10_malformed_body "hello" (fun _ => .ok ("", 200)) rfl).2.2.1⟩

/-- C7: an upload envelope that passes validation but whose `image_data` is
not valid base64 fails loudly: status 500 with error `Upload failed` and the
decoder's message, and no upstream call, in each implementation. -/
theorem c7_invalid_base64 (data : Json) (up : UpstreamCall → FetchOutcome) (img : String)
    (h1 : getField data "image_data" = some (.str img))
    (h2 : truthy (getField data "filename") = true)
    (h3 : truthy (getField data "token") = true)
    (h4 : truthy (getField data "target_url") = true)
    (hatob : atob img = none) :
    CfUpload.handleUploadData data up
      = ⟨[], jsonResponse (errBody "Upload failed" invalidCharMsg) 500⟩ ∧
    CfProxy.handleUploadData data up
      = ⟨[], jsonResponse (errBody "Upload failed" invalidCharMsg) 500⟩ ∧
    Supa.handleUploadData data up
      = ⟨[], jsonResponse (errBody "Upload failed" invalidCharMsg) 500⟩ := by
  obtain ⟨fs, rfl⟩ := getField_some_obj h1
  have himg : img ≠ "" := by
    intro he
    subst he
    rw [show atob "" = some "" from rfl] at hatob
    simp at hatob
  refine ⟨?_, ?_, ?_⟩ <;>
    simp [cfUpload_handleUploadData_obj, cfProxy_handleUploadData_obj,
      supa_handleUploadData_obj, CfUpload.handleUploadGo, CfProxy.handleUploadGo,
      Supa.handleUploadGo, h1, h2, h3, h4, truthy_some_str himg, jsToString, hatob]

/-- Witness for C7: `"!!!"` is not base64. -/
theorem c7_invalid_base64_witness :
    CfUpload.handleUploadData
        (.obj [("image_data", .str "!!!"), ("filename", .str "a.png"),
               ("token", .str "t"), ("target_url", .str "u")])
        (fun _ => .ok ("", 200))
      = ⟨[], jsonResponse (errBody "Upload failed" invalidCharMsg) 500⟩ :=
  (c7_invalid_base64
    (.obj [("image_data", .str "!!!"), ("filename", .str "a.png"),
           ("token", .str "t"), ("target_url", .str "u")])
    (fun _ => .ok ("", 200)) "!!!" rfl rfl rfl rfl rfl).1

/-- C4: an inbound envelope (a parsed, non-`null` request body) with a
required field missing or empty is answered with status 400 and the
operation's field-listing message, and no upstream call is made. -/
theorem c4_validation_400 (data : Json) (up : UpstreamCall → FetchOutcome)
    (hnn : data ≠ .null) :
    ((getField data "method" = none ∨ getField data "method" = some (.str "") ∨
      getField data "url" = none ∨ getField data "url" = some (.str "")) →
      CfProxy.handleProxyData data up
        = ⟨[], jsonResponse
            (.obj [("error", .str "Missing required fields: method, url")]) 400⟩) ∧
    ((getField data "image_data" = none ∨ getField data "image_data" = some (.str "") ∨
      getField data "filename" = none ∨ getField data "filename" = some (.str "") ∨
      getField data "token" = none ∨ getField data "token" = some (.str "") ∨
      getField data "target_url" = none ∨ getField data "target_url" = some (.str "")) →
      CfProxy.handleUploadData data up
        = ⟨[], jsonResponse
            (.obj [("error",
              .str "Missing required fields: image_data, filename, token, target_url")])
            400⟩) := by
  constructor
  · intro h
    rw [cfProxy_handleProxyData_ne_null up hnn]
    rcases h with h | h | h | h <;> simp [CfProxy.handleProxyGo, h, truthy, truthyJ]
  · intro h
    rw [cfProxy_handleUploadData_ne_null up hnn]
    rcases h with h | h | h | h | h | h | h | h <;>
      simp [CfProxy.handleUploadGo, h, truthy, truthyJ]

/-- C1: a valid upload envelope (all four fields non-empty strings,
`image_data` decodable by `atob`) produces exactly one POST to the target
url whose explicit header map sets exactly the `Authorization: Bearer
<token>` and fixed `User-Agent` headers, and whose body is a multipart form
of exactly two parts: the `file` part with the decoded bytes, inferred MIME
type and original filename, and the `file_name` text part carrying the
filename — in each of the three implementations (the Supabase variant
decodes via its `Uint8Array.from` mapping). -/
theorem c1_upload_call (data : Json) (up : UpstreamCall → FetchOutcome)
    (img fn tok turl bin : String)
    (h1 : getField data "image_data" = some (.str img)) (himg : img ≠ "")
    (h2 : getField data "filename" = some (.str fn)) (hfn : fn ≠ "")
    (h3 : getField data "token" = some (.str tok)) (htok : tok ≠ "")
    (h4 : getField data "target_url" = some (.str turl)) (hturl : turl ≠ "")
    (hb : atob img = some bin) :
    (CfProxy.handleUploadData data up).calls
      = [⟨.str turl, "POST",
          .obj [("Authorization", .str ("Bearer " ++ tok)),
                ("User-Agent", .str uaHeaderValue)],
          some (.form [.file "file" (decodeBytesLoop bin) (mimeFromLower (jsLower fn)) fn,
                       .text "file_name" fn])⟩] ∧
    (CfUpload.handleUploadData data up).calls
      = [⟨.str turl, "POST",
          .obj [("Authorization", .str ("Bearer " ++ tok)),
                ("User-Agent", .str uaHeaderValue)],
          some (.form [.file "file" (decodeBytesLoop bin) (mimeFromLower (jsLower fn)) fn,
                       .text "file_name" fn])⟩] ∧
    (Supa.handleUploadData data up).calls
      = [⟨.str turl, "POST",
          .obj [("Authorization", .str ("Bearer " ++ tok)),
                ("User-Agent", .str uaHeaderValue)],
          some (.form [.file "file" (decodeBytesFrom bin) (mimeFromLower (jsLower fn)) fn,
                       .text "file_name" fn])⟩] := by
  obtain ⟨fs, rfl⟩ := getField_some_obj h1
  refine ⟨?_, ?_, ?_⟩ <;>
    simp [cfProxy_handleUploadData_obj, cfUpload_handleUploadData_obj,
      supa_handleUploadData_obj, CfProxy.handleUploadGo, CfUpload.handleUploadGo,
      Supa.handleUploadGo, h1, h2, h3, h4, truthy_some_str himg, truthy_some_str hfn,
      truthy_some_str htok, truthy_some_str hturl, jsToString, jsToLowerCase, hb,
      relayFetch_calls]

/-- Witness for C1: a three-byte upload, `QUJD ↦ ABC`. -/
theorem c1_upload_call_witness :
    (CfUpload.handleUploadData
        (.obj [("image_data", .str "QUJD"), ("filename", .str "a.png"),
               ("token", .str "t"), ("target_url", .str "u")])
        (fun _ => .ok ("", 200))).calls
      = [⟨.str "u", "POST",
          .obj [("Authorization", .str ("Bearer " ++ "t")),
                ("User-Agent", .str uaHeaderValue)],
          some (.form [.file "file" (decodeBytesLoop "ABC") (mimeFromLower (jsLower "a.png"))
                         "a.png",
                       .text "file_name" "a.png"])⟩] :=
  (c1_upload_call
    (.obj [("image_data", .str "QUJD"), ("filename", .str "a.png"),
           ("token", .str "t"), ("target_url", .str "u")])
    (fun _ => .ok ("", 200)) "QUJD" "a.png" "t" "u" "ABC"
    rfl (by decide) rfl (by decide) rfl (by decide) rfl (by decide) rfl).2.1

/-- A constant-success oracle makes `relayFetch` answer with the normalized
upstream text and status. -/
theorem relayFetch_const_ok (url : Json) (m : String) (hd : Json) (b : Option BodyInit)
    (e t : String) (s' : Nat) :
    (relayFetch (fun _ => .ok (t, s')) url m hd b e).response = normalizeResp t s' := by
  simp [relayFetch]

/-- A normalized upstream response keeps the upstream status verbatim. -/
theorem normalizeResp_status (t : String) (s' : Nat) :
    (normalizeResp t s').status = s' := rfl

/-- C5: when the upstream completes with body `JSON.stringify V` and status
`s`, a valid generic-relay envelope is answered with body `V` and exactly
status `s` — the relay never substitutes its own status for a completed
upstream call. -/
theorem c5_roundtrip_status_preserved (data : Json) (m : String) (V : Json) (s : Nat)
    (hm : getField data "method" = some (.str m)) (hm0 : m ≠ "")
    (hu : truthy (getField data "url") = true)
    (hh : truthy (getField data "headers") = false ∨
      ∃ hfs, getField data "headers" = some (.obj hfs)) :
    (CfProxy.handleProxyData data (fun _ => .ok (stringify V, s))).response
      = jsonResponse V s := by
  obtain ⟨fs, rfl⟩ := getField_some_obj hm
  rcases hh with hh | ⟨hfs, hh⟩ <;>
    simp [cfProxy_handleProxyData_obj, CfProxy.handleProxyGo, hm, truthy_some_str hm0,
      hu, hh, truthy_some_obj, jsToUpperCase, jsSetProp, relayFetch,
      normalizeResp_stringify] <;>
    split_ifs <;> rfl

/-- Witness for C5: an upstream 207 with body `{"ok":true}` comes back with
status 207 and that exact body. -/
theorem c5_roundtrip_status_preserved_witness :
    (CfProxy.handleProxyData (.obj [("method", .str "get"), ("url", .str "u")])
        (fun _ => .ok (stringify (.obj [("ok", .bool true)]), 207))).response
      = jsonResponse (.obj [("ok", .bool true)]) 207 :=
  c5_roundtrip_status_preserved
    (.obj [("method", .str "get"), ("url", .str "u")]) "get"
    (.obj [("ok", .bool true)]) 207 rfl (by decide) rfl (Or.inl rfl)

/-- Witness for C4 at the empty-object envelope (every field missing). -/
theorem c4_validation_400_witness :
    CfProxy.handleProxyData (.obj []) (fun _ => .ok ("", 200))
      = ⟨[], jsonResponse
          (.obj [("error", .str "Missing required fields: method, url")]) 400⟩ ∧
    CfProxy.handleUploadData (.obj []) (fun _ => .ok ("", 200))
      = ⟨[], jsonResponse
          (.obj [("error",
            .str "Missing required fields: image_data, filename, token, target_url")])
          400⟩ :=
  ⟨(c4_validation_400 (.obj []) (fun _ => .ok ("", 200))
      (fun h => Json.noConfusion h)).1 (Or.inl rfl),
   (c4_validation_400 (.obj []) (fun _ => .ok ("", 200))
      (fun h => Json.noConfusion h)).2 (Or.inl rfl)⟩

/-- C2 counterexample: the envelope `\x7b"method":"post","url":"u","body":0\x7d`
supplies a body and its method uppercases to `POST`, yet the single upstream
call carries no body — JS truthiness drops the supplied-but-falsy body `0`,
refuting "attached if and only if the uppercased method is POST and a body
is supplied". -/
theorem c2_counterexample :
    getField (.obj [("method", .str "post"), ("url", .str "u"), ("body", .num 0)])
        "body" = some (.num 0) ∧
    jsUpper "post" = "POST" ∧
    (CfProxy.handleProxyData
        (.obj [("method", .str "post"), ("url", .str "u"), ("body", .num 0)])
        (fun _ => .ok ("", 200))).calls
      = [⟨.str "u", "POST", .obj [], none⟩] := by
  refine ⟨rfl, rfl, ?_⟩
  rw [cfProxy_handleProxyData_obj]
  simp [CfProxy.handleProxyGo, getField, jsToUpperCase, jsUpper, charUpper,
    truthy, truthyJ, relayFetch_calls]

/-- C2 amended: a valid generic-relay envelope yields exactly one upstream
call with the uppercased method and the caller's headers object (empty if
the `headers` field is absent or falsy); the serialized body is attached
exactly when the uppercased method is `POST` *and the body field is truthy*
(a falsy body such as `0`, `""` or `false` is silently dropped), and
`Content-Type: application/json` is injected exactly when the body is
attached and the headers object has no *truthy* own `Content-Type` entry (a
caller-specified falsy `Content-Type` such as `""` is overwritten); a
non-POST method with a supplied body sends no body and no error, and a
completed upstream call's status is passed through. -/
theorem c2_call_shape_amended (data : Json) (up : UpstreamCall → FetchOutcome)
    (m : String) (hfs : List (String × Json))
    (hm : getField data "method" = some (.str m)) (hm0 : m ≠ "")
    (hu : truthy (getField data "url") = true)
    (hh : (if truthy (getField data "headers")
           then (getField data "headers").getD .null else .obj []) = .obj hfs) :
    (CfProxy.handleProxyData data up).calls
      = [⟨(getField data "url").getD .null, jsUpper m,
          (if (jsUpper m == "POST" && truthy (getField data "body"))
              && !truthy (getField (.obj hfs) "Content-Type")
           then .obj (setFields hfs "Content-Type" (.str "application/json"))
           else .obj hfs),
          (if jsUpper m == "POST" && truthy (getField data "body")
           then some (.jsonText (stringify ((getField data "body").getD .null)))
           else none)⟩] ∧
    (∀ t s', (CfProxy.handleProxyData data (fun _ => .ok (t, s'))).response.status
      = s') := by
  obtain ⟨fs, rfl⟩ := getField_some_obj hm
  constructor
  · rw [cfProxy_handleProxyData_obj]
    simp only [CfProxy.handleProxyGo]
    rw [hm, hh]
    simp only [truthy_some_str hm0, hu, Bool.not_true, Bool.or_self, Bool.false_or,
      if_false, Option.getD_some, jsToUpperCase]
    by_cases hpb : (jsUpper m == "POST" && truthy (getField (Json.obj fs) "body")) = true
    · by_cases hct : truthy (getField (Json.obj hfs) "Content-Type") = true
      · simp [hpb, hct, relayFetch_calls]
      · simp [hpb, hct, Bool.not_eq_true _ ▸ hct, jsSetProp, relayFetch_calls]
    · simp [hpb, relayFetch_calls]
  · intro t s'
    rw [cfProxy_handleProxyData_obj]
    simp only [CfProxy.handleProxyGo]
    rw [hm, hh]
    simp only [truthy_some_str hm0, hu, Bool.not_true, Bool.or_self, Bool.false_or,
      if_false, Option.getD_some, jsToUpperCase, jsSetProp]
    split_ifs <;> simp_all [relayFetch, normalizeResp_status]

/-- Witness for the amended C2 at a POST envelope with a body and no
headers field. -/
theorem c2_call_shape_amended_witness :
    (CfProxy.handleProxyData
        (.obj [("method", .str "post"), ("url", .str "u"),
               ("body", .obj [("k", .str "v")])])
        (fun _ => .ok ("", 200))).calls
      = [⟨(getField (.obj [("method", .str "post"), ("url", .str "u"),
               ("body", .obj [("k", .str "v")])]) "url").getD .null, jsUpper "post",
          (if (jsUpper "post" == "POST"
                && truthy (getField (.obj [("method", .str "post"), ("url", .str "u"),
                     ("body", .obj [("k", .str "v")])]) "body"))
              && !truthy (getField (Json.obj []) "Content-Type")
           then .obj (setFields [] "Content-Type" (.str "application/json"))
           else .obj []),
          (if jsUpper "post" == "POST"
              && truthy (getField (.obj [("method", .str "post"), ("url", .str "u"),
                   ("body", .obj [("k", .str "v")])]) "body")
           then some (.jsonText (stringify
             ((getField (.obj [("method", .str "post"), ("url", .str "u"),
                 ("body", .obj [("k", .str "v")])]) "body").getD .null)))
           else none)⟩] :=
  (c2_call_shape_amended
    (.obj [("method", .str "post"), ("url", .str "u"),
           ("body", .obj [("k", .str "v")])])
    (fun _ => .ok ("", 200)) "post" [] rfl (by decide) rfl rfl).1

/-- The effective headers object (`headers || {}`) is always truthy, so the
extra `!fetchOptions.headers` disjunct in the Supabase guard never fires. -/
theorem truthyJ_hdrs0 (h : Option Json) :
    truthyJ (if truthy h then h.getD .null else .obj []) = true := by
  cases h with
  | none => rfl
  | some v => cases hv : truthyJ v <;> simp [truthy, hv] <;> rfl

theorem proxyGo_eq (data : Json) (up : UpstreamCall → FetchOutcome) :
    CfProxy.handleProxyGo data up = Supa.handleProxyGo data up := by
  simp only [CfProxy.handleProxyGo, Supa.handleProxyGo, truthyJ_hdrs0, Bool.not_true,
    Bool.false_or]

theorem uploadGo_supa_eq (data : Json) (up : UpstreamCall → FetchOutcome) :
    CfUpload.handleUploadGo data up = Supa.handleUploadGo data up := by
  simp only [CfUpload.handleUploadGo, Supa.handleUploadGo, decodeBytes_eq]

/-- C9: the duplicated implementations are extensionally equal — for every
request text and upstream oracle, `handleProxy` of `cf-worker-proxy.js`
agrees with `handleProxy` of `supabase-edge-proxy.ts`, and the three
`handleUpload`s agree pairwise; in particular the per-byte `charCodeAt`
loop and the `Uint8Array.from` mapping decode to the same byte list. -/
theorem c9_implementations_equivalent :
    (∀ t up, CfProxy.handleProxy t up = Supa.handleProxy t up) ∧
    (∀ t up, CfProxy.handleUpload t up = CfUpload.handleUpload t up) ∧
    (∀ t up, CfUpload.handleUpload t up = Supa.handleUpload t up) ∧
    (∀ s, decodeBytesLoop s = decodeBytesFrom s) := by
  refine ⟨?_, fun t up => rfl, ?_, decodeBytes_eq⟩
  · intro t up
    simp only [CfProxy.handleProxy, Supa.handleProxy]
    cases jsonParse t with
    | none => rfl
    | some data =>
      cases data <;>
        simp [CfProxy.handleProxyData, Supa.handleProxyData, proxyGo_eq]
  · intro t up
    simp only [CfUpload.handleUpload, Supa.handleUpload]
    cases jsonParse t with
    | none => rfl
    | some data =>
      cases data <;>
        simp [CfUpload.handleUploadData, Supa.handleUploadData, uploadGo_supa_eq]

/-- C8 counterexample: the Cloudflare proxy worker's `/health` response is
built with a bare `new Response` carrying only `Content-Type` — it has no
`Access-Control-Allow-Origin` header, refuting "every response carries
both". -/
theorem c8_counterexample :
    (CfProxy.workerFetch ⟨"GET", "/health", ""⟩ "2026-02-03T04:05:06.000Z"
        (fun _ => .ok ("", 200))).response.headers
      = [("Content-Type", "application/json")] ∧
    List.lookup "Access-Control-Allow-Origin"
      ((CfProxy.workerFetch ⟨"GET", "/health", ""⟩ "2026-02-03T04:05:06.000Z"
        (fun _ => .ok ("", 200))).response.headers) = none :=
  ⟨rfl, rfl⟩

theorem cfProxy_proxyGo_headers (data : Json) (up : UpstreamCall → FetchOutcome) :
    (CfProxy.handleProxyGo data up).response.headers
      = [("Content-Type", "application/json"), ("Access-Control-Allow-Origin", "*")] := by
  simp only [CfProxy.handleProxyGo]
  repeat' split
  all_goals simp [jsonResponse, relayFetch_headers]

theorem cfProxy_uploadGo_headers (data : Json) (up : UpstreamCall → FetchOutcome) :
    (CfProxy.handleUploadGo data up).response.headers
      = [("Content-Type", "application/json"), ("Access-Control-Allow-Origin", "*")] := by
  simp only [CfProxy.handleUploadGo]
  repeat' split
  all_goals simp [jsonResponse, relayFetch_headers]

theorem cfUpload_uploadGo_headers (data : Json) (up : UpstreamCall → FetchOutcome) :
    (CfUpload.handleUploadGo data up).response.headers
      = [("Content-Type", "application/json"), ("Access-Control-Allow-Origin", "*")] :=
  cfProxy_uploadGo_headers data up

theorem supa_proxyGo_headers (data : Json) (up : UpstreamCall → FetchOutcome) :
    (Supa.handleProxyGo data up).response.headers
      = [("Content-Type", "application/json"), ("Access-Control-Allow-Origin", "*")] := by
  rw [← proxyGo_eq]; exact cfProxy_proxyGo_headers data up

theorem supa_uploadGo_headers (data : Json) (up : UpstreamCall → FetchOutcome) :
    (Supa.handleUploadGo data up).response.headers
      = [("Content-Type", "application/json"), ("Access-Control-Allow-Origin", "*")] := by
  rw [← uploadGo_supa_eq]; exact cfUpload_uploadGo_headers data up

theorem cfProxy_handleProxy_headers (t : String) (up : UpstreamCall → FetchOutcome) :
    (CfProxy.handleProxy t up).response.headers
      = [("Content-Type", "application/json"), ("Access-Control-Allow-Origin", "*")] := by
  simp only [CfProxy.handleProxy]
  cases jsonParse t with
  | none => simp [jsonResponse]
  | some data =>
    cases data <;> simp [CfProxy.handleProxyData, jsonResponse, cfProxy_proxyGo_headers]

theorem cfProxy_handleUpload_headers (t : String) (up : UpstreamCall → FetchOutcome) :
    (CfProxy.handleUpload t up).response.headers
      = [("Content-Type", "application/json"), ("Access-Control-Allow-Origin", "*")] := by
  simp only [CfProxy.handleUpload]
  cases jsonParse t with
  | none => simp [jsonResponse]
  | some data =>
    cases data <;> simp [CfProxy.handleUploadData, jsonResponse, cfProxy_uploadGo_headers]

theorem cfUpload_handleUpload_headers (t : String) (up : UpstreamCall → FetchOutcome) :
    (CfUpload.handleUpload t up).response.headers
      = [("Content-Type", "application/json"), ("Access-Control-Allow-Origin", "*")] := by
  simp only [CfUpload.handleUpload]
  cases jsonParse t with
  | none => simp [jsonResponse]
  | some data =>
    cases data <;> simp [CfUpload.handleUploadData, jsonResponse, cfUpload_uploadGo_headers]

theorem supa_handleProxy_headers (t : String) (up : UpstreamCall → FetchOutcome) :
    (Supa.handleProxy t up).response.headers
      = [("Content-Type", "application/json"), ("Access-Control-Allow-Origin", "*")] := by
  simp only [Supa.handleProxy]
  cases jsonParse t with
  | none => simp [jsonResponse]
  | some data =>
    cases data <;> simp [Supa.handleProxyData, jsonResponse, supa_proxyGo_headers]

theorem supa_handleUpload_headers (t : String) (up : UpstreamCall → FetchOutcome) :
    (Supa.handleUpload t up).response.headers
      = [("Content-Type", "application/json"), ("Access-Control-Allow-Origin", "*")] := by
  simp only [Supa.handleUpload]
  cases jsonParse t with
  | none => simp [jsonResponse]
  | some data =>
    cases data <;> simp [Supa.handleUploadData, jsonResponse, supa_uploadGo_headers]

/-- C8 amended: every response built by `jsonResponse` — every proxy and
upload handler response in all three files, and the Supabase router's
health and not-found responses — carries both `Content-Type:
application/json` and `Access-Control-Allow-Origin: *`; but the two
Cloudflare workers' `/health` and not-found responses are bare `new
Response`s carrying only `Content-Type`. -/
theorem c8_cors_headers_amended :
    (∀ (d : Json) (s : Nat), (jsonResponse d s).headers
      = [("Content-Type", "application/json"), ("Access-Control-Allow-Origin", "*")]) ∧
    (∀ t up, (CfProxy.handleProxy t up).response.headers
      = [("Content-Type", "application/json"), ("Access-Control-Allow-Origin", "*")]) ∧
    (∀ t up, (CfProxy.handleUpload t up).response.headers
      = [("Content-Type", "application/json"), ("Access-Control-Allow-Origin", "*")]) ∧
    (∀ t up, (CfUpload.handleUpload t up).response.headers
      = [("Content-Type", "application/json"), ("Access-Control-Allow-Origin", "*")]) ∧
    (∀ t up, (Supa.handleProxy t up).response.headers
      = [("Content-Type", "application/json"), ("Access-Control-Allow-Origin", "*")]) ∧
    (∀ t up, (Supa.handleUpload t up).response.headers
      = [("Content-Type", "application/json"), ("Access-Control-Allow-Origin", "*")]) ∧
    (∀ req now up, req.method ≠ "OPTIONS" →
      (Supa.serveHandler req now up).response.headers
        = [("Content-Type", "application/json"), ("Access-Control-Allow-Origin", "*")]) ∧
    (∀ b now up m, m ≠ "OPTIONS" →
      (CfProxy.workerFetch ⟨m, "/health", b⟩ now up).response.headers
          = [("Content-Type", "application/json")] ∧
      (CfUpload.workerFetch ⟨m, "/nope", b⟩ now up).response.headers
          = [("Content-Type", "application/json")]) := by
  refine ⟨fun d s => rfl, cfProxy_handleProxy_headers, cfProxy_handleUpload_headers,
    cfUpload_handleUpload_headers, supa_handleProxy_headers, supa_handleUpload_headers,
    ?_, ?_⟩
  · intro req now up hne
    have h0 : (req.method == "OPTIONS") = false := by
      rw [beq_eq_false_iff_ne]; exact hne
    simp only [Supa.serveHandler, h0, Bool.false_eq_true, if_false]
    repeat' split
    all_goals simp [jsonResponse, supa_handleProxy_headers, supa_handleUpload_headers]
  · intro b now up m hne
    have h0 : (m == "OPTIONS") = false := by
      rw [beq_eq_false_iff_ne]; exact hne
    constructor <;> simp [CfProxy.workerFetch, CfUpload.workerFetch, h0]

/-- Witness for the amended C8: a Supabase health check carries both
headers while the Cloudflare proxy worker's health check carries only
`Content-Type`. -/
theorem c8_cors_headers_amended_witness :
    (Supa.serveHandler ⟨"GET", "/fn/health", ""⟩ "2026-02-03T04:05:06.000Z"
        (fun _ => .ok ("", 200))).response.headers
      = [("Content-Type", "application/json"), ("Access-Control-Allow-Origin", "*")] ∧
    (CfProxy.workerFetch ⟨"GET", "/health", ""⟩ "2026-02-03T04:05:06.000Z"
        (fun _ => .ok ("", 200))).response.headers
      = [("Content-Type", "application/json")] :=
  ⟨c8_cors_headers_amended.2.2.2.2.2.2.1 ⟨"GET", "/fn/health", ""⟩
      "2026-02-03T04:05:06.000Z" (fun _ => .ok ("", 200)) (by decide),
   (c8_cors_headers_amended.2.2.2.2.2.2.2 "" "2026-02-03T04:05:06.000Z"
      (fun _ => .ok ("", 200)) "GET" (by decide)).1⟩

end Sora
